import Mathlib

/-!
Verification of the HyperSwipe order-tracking sidecar.

Each definition below is a shallow embedding of a function of the Python
source (`app/services/order_state_machine.py`,
`app/services/industry_grade_order_tracker.py`,
`app/services/hyperliquid_api_client.py`, `app/websocket.py`).
Prices and sizes are modelled as rationals; the embedded arithmetic is
addition, subtraction, `min` and comparisons, which floats apart from
rounding perform identically on the small concrete inputs used here.
-/

namespace HyperSwipe

/-! ### Order state machine (`app/services/order_state_machine.py`) -/

/-- `OrderState` enum (order_state_machine.py lines 15-25). -/
inductive OrderState where
  | pending
  | submitted
  | openState
  | filled
  | partiallyFilled
  | cancelled
  | rejected
  | expired
  | failed
  deriving DecidableEq, Repr, Fintype

/-- `OrderEvent` enum (order_state_machine.py lines 27-36). -/
inductive OrderEvent where
  | submit
  | confirmOpen
  | partialFill
  | completeFill
  | cancel
  | reject
  | expire
  | fail
  deriving DecidableEq, Repr, Fintype

/-- The transition table installed by `OrderStateMachine._setup_state_machine`
(order_state_machine.py lines 80-110).  `none` means the (state, event) pair is
absent from the table, so `trigger_event` treats the event as invalid. -/
def stateTransitions : OrderState → OrderEvent → Option OrderState
  | .pending, .submit => some .submitted
  | .pending, .fail => some .failed
  | .submitted, .confirmOpen => some .openState
  | .submitted, .reject => some .rejected
  | .submitted, .fail => some .failed
  | .submitted, .completeFill => some .filled
  | .openState, .partialFill => some .partiallyFilled
  | .openState, .completeFill => some .filled
  | .openState, .cancel => some .cancelled
  | .openState, .expire => some .expired
  | .openState, .reject => some .rejected
  | .partiallyFilled, .partialFill => some .partiallyFilled
  | .partiallyFilled, .completeFill => some .filled
  | .partiallyFilled, .cancel => some .cancelled
  | .partiallyFilled, .expire => some .expired
  | _, _ => none

/-- `OrderStateMachine.is_terminal_state` (order_state_machine.py lines 223-226). -/
def isTerminalState (s : OrderState) : Bool :=
  s = .filled || s = .cancelled || s = .rejected || s = .expired || s = .failed

/-- `OrderContext` dataclass (order_state_machine.py lines 38-61).  The Python
code stores the current state in `metadata['state']` with default `pending`;
here it is a field with the same default.  Timestamps and the metadata strings
(cancellation/rejection reasons, error text) are not needed by any claim and
are omitted. -/
structure OrderContext where
  userAddress : String := ""
  assetIndex : Nat := 0
  isBuy : Bool := true
  price : ℚ := 0
  size : ℚ := 0
  filledSize : ℚ := 0
  remainingSize : ℚ := 0
  exchangeOrderId : Option Int := none
  state : OrderState := .pending
  deriving DecidableEq, Repr

/-- `OrderContext.__post_init__` (order_state_machine.py lines 60-61):
`remaining_size = size - filled_size`. -/
def mkOrderContext (o : OrderContext) : OrderContext :=
  { o with remainingSize := o.size - o.filledSize }

/-- The size mutations done by the event handlers that `trigger_event` runs
before the state change: `_handle_partial_fill_event` (lines 301-309) sets
`filled_size = min(filled_size + fill_size, size)` and
`remaining_size = size - filled_size`; `_handle_complete_fill_event`
(lines 311-317) sets `filled_size = size` and `remaining_size = 0`.  The other
handlers only touch metadata strings or timestamps. -/
def applyEventHandler (o : OrderContext) (e : OrderEvent) (fillSize : ℚ) : OrderContext :=
  match e with
  | .partialFill =>
      let f := min (o.filledSize + fillSize) o.size
      { o with filledSize := f, remainingSize := o.size - f }
  | .completeFill => { o with filledSize := o.size, remainingSize := 0 }
  | _ => o

/-- `OrderStateMachine.trigger_event` (order_state_machine.py lines 179-221):
look up the (current state, event) pair in the transition table; if absent,
log and return `False` leaving the order untouched; otherwise run the event
handler, move to the new state and return `True`. -/
def triggerEvent (o : OrderContext) (e : OrderEvent) (fillSize : ℚ) : OrderContext × Bool :=
  match stateTransitions o.state e with
  | none => (o, false)
  | some s' => ({ applyEventHandler o e fillSize with state := s' }, true)

/-! ### Push-fill processing in the hybrid tracker
(`app/services/industry_grade_order_tracker.py`) -/

/-- The mutation `IndustryGradeOrderTracker._process_fill_events` applies to a
matched order (industry_grade_order_tracker.py lines 360-393): add the fill
size to `filled_size` with no cap, recompute `remaining_size`, then trigger
`COMPLETE_FILL` when `remaining_size <= 0` and `PARTIAL_FILL` otherwise.  The
tracker and the state machine share the same `OrderContext` object, so the
event handler inside `trigger_event` mutates the same sizes again. -/
def processFill (o : OrderContext) (fillSize : ℚ) : OrderContext × Bool :=
  if o.size - (o.filledSize + fillSize) ≤ 0 then
    triggerEvent { o with filledSize := o.filledSize + fillSize,
                          remainingSize := o.size - (o.filledSize + fillSize) }
      .completeFill fillSize
  else
    triggerEvent { o with filledSize := o.filledSize + fillSize,
                          remainingSize := o.size - (o.filledSize + fillSize) }
      .partialFill fillSize

/-- Invariant `filled_size + remaining_size == size` (spec §3, §8.1). -/
def sizeSumInvariant (o : OrderContext) : Prop :=
  o.filledSize + o.remainingSize = o.size

/-- Invariant `0 ≤ filled_size ≤ size` (spec §3, §8.1). -/
def fillBoundsInvariant (o : OrderContext) : Prop :=
  0 ≤ o.filledSize ∧ o.filledSize ≤ o.size

/-- The transition table exactly as the claim C1 phrases it, written from the
spec's words (spec §4.2), to be compared with `stateTransitions` taken from
the source. -/
def specTransitionTable : OrderState → OrderEvent → Option OrderState
  | .pending, .submit => some .submitted
  | .pending, .fail => some .failed
  | .submitted, .confirmOpen => some .openState
  | .submitted, .completeFill => some .filled
  | .submitted, .reject => some .rejected
  | .submitted, .fail => some .failed
  | .openState, .partialFill => some .partiallyFilled
  | .openState, .completeFill => some .filled
  | .openState, .cancel => some .cancelled
  | .openState, .expire => some .expired
  | .openState, .reject => some .rejected
  | .partiallyFilled, .partialFill => some .partiallyFilled
  | .partiallyFilled, .completeFill => some .filled
  | .partiallyFilled, .cancel => some .cancelled
  | .partiallyFilled, .expire => some .expired
  | _, _ => none

/-- C1: `trigger_event` changes an order's state exactly according to the
transition table (which coincides with the table stated in the claim), every
terminal state has no outgoing transition, and for every (state, event) pair
absent from the table — in particular every event in a terminal state — the
order is left unchanged and the call reports failure. -/
theorem c1_trigger_event_matches_table :
    (∀ s e, stateTransitions s e = specTransitionTable s e) ∧
    (∀ s e, isTerminalState s = true → stateTransitions s e = none) ∧
    (∀ o e fs, stateTransitions o.state e = none →
      triggerEvent o e fs = (o, false)) ∧
    (∀ o e fs s', stateTransitions o.state e = some s' →
      (triggerEvent o e fs).1.state = s' ∧ (triggerEvent o e fs).2 = true) := by
  refine ⟨by decide, by decide, ?_, ?_⟩
  · intro o e fs h
    simp [triggerEvent, h]
  · intro o e fs s' h
    simp [triggerEvent, h]

/-- Witness for C1: a concrete cancel event delivered to a pending order is
rejected without a state change, and a submit event moves it to submitted. -/
theorem c1_trigger_event_matches_table_witness :
    triggerEvent {} .cancel 0 = ({}, false) ∧
    (triggerEvent { size := 1 } .submit 0).1.state = .submitted :=
  ⟨c1_trigger_event_matches_table.2.2.1 {} .cancel 0 rfl,
   (c1_trigger_event_matches_table.2.2.2 { size := 1 } .submit 0 .submitted rfl).1⟩

/-! C2: the trace refuting the claim.  A fresh order of size 1 is created,
submitted, completely filled by a push fill, and then the same push fill frame
is replayed (the tracker stays active until the cleanup loop runs, and the
replay still correlates by `exchange_order_id`).  The tracker adds the fill
size again with no cap, the resulting `COMPLETE_FILL` is rejected by the state
machine (the order is already terminal), so the capping handler never runs and
`filled_size = 2 > size = 1` persists. -/

def c2Created : OrderContext := mkOrderContext { size := 1 }

def c2Submitted : OrderContext := (triggerEvent c2Created .submit 0).1

def c2Filled : OrderContext := (processFill c2Submitted 1).1

def c2Replayed : OrderContext := (processFill c2Filled 1).1

/-- Counterexample to C2 as stated: after a replayed duplicate push fill the
order has `filled_size = 2` but `size = 1`, so `0 ≤ filled_size ≤ size` fails
even though every step was an operation of the system. -/
theorem c2_size_invariants_counterexample :
    c2Filled.state = .filled ∧ c2Filled.filledSize = 1 ∧
    c2Replayed.filledSize = 2 ∧ c2Replayed.size = 1 ∧
    ¬ fillBoundsInvariant c2Replayed := by
  norm_num [c2Replayed, c2Filled, c2Submitted, c2Created, mkOrderContext,
    processFill, triggerEvent, applyEventHandler, stateTransitions,
    fillBoundsInvariant]

/-- C2 amended: `filled_size + remaining_size = size` holds unconditionally
after push-fill processing, and both invariants are preserved by every
state-machine event handler and by every push fill whose resulting event is
accepted by the state machine; only a fill whose event is rejected (such as a
replayed duplicate delivered after the order reached a terminal state) can
leave `filled_size > size`. -/
theorem c2_size_invariants_amended :
    (∀ o fs, sizeSumInvariant (processFill o fs).1) ∧
    (∀ o e fs, sizeSumInvariant o → fillBoundsInvariant o → 0 ≤ fs →
      sizeSumInvariant (triggerEvent o e fs).1 ∧
      fillBoundsInvariant (triggerEvent o e fs).1) ∧
    (∀ o fs, fillBoundsInvariant o → 0 ≤ fs → (processFill o fs).2 = true →
      fillBoundsInvariant (processFill o fs).1) := by
  have handler : ∀ o e fs, sizeSumInvariant o → fillBoundsInvariant o → 0 ≤ fs →
      sizeSumInvariant (applyEventHandler o e fs) ∧
      fillBoundsInvariant (applyEventHandler o e fs) := by
    intro o e fs hsum hbnd hfs
    obtain ⟨h0, hle⟩ := hbnd
    have hsz : (0 : ℚ) ≤ o.size := le_trans h0 hle
    cases e
    case partialFill =>
      constructor
      · simp only [applyEventHandler, sizeSumInvariant]
        ring
      · refine ⟨le_min (by linarith) hsz, ?_⟩
        simp only [applyEventHandler]
        exact min_le_right _ _
    case completeFill =>
      constructor
      · simp [applyEventHandler, sizeSumInvariant]
      · exact ⟨hsz, le_refl _⟩
    all_goals exact ⟨hsum, h0, hle⟩
  have trig : ∀ o e fs, sizeSumInvariant o → fillBoundsInvariant o → 0 ≤ fs →
      sizeSumInvariant (triggerEvent o e fs).1 ∧
      fillBoundsInvariant (triggerEvent o e fs).1 := by
    intro o e fs hsum hbnd hfs
    unfold triggerEvent
    cases h : stateTransitions o.state e with
    | none => exact ⟨hsum, hbnd⟩
    | some s' =>
        obtain ⟨ha, hb1, hb2⟩ := handler o e fs hsum hbnd hfs
        exact ⟨ha, hb1, hb2⟩
  have handlerSum : ∀ o e fs, sizeSumInvariant o →
      sizeSumInvariant (applyEventHandler o e fs) := by
    intro o e fs hsum
    cases e
    case partialFill =>
      simp only [applyEventHandler, sizeSumInvariant]
      ring
    case completeFill =>
      simp [applyEventHandler, sizeSumInvariant]
    all_goals exact hsum
  have trigSum : ∀ o e fs, sizeSumInvariant o →
      sizeSumInvariant (triggerEvent o e fs).1 := by
    intro o e fs hsum
    unfold triggerEvent
    cases h : stateTransitions o.state e with
    | none => exact hsum
    | some s' => exact handlerSum o e fs hsum
  have trigBnd : ∀ (o : OrderContext) (e : OrderEvent) (fs : ℚ),
      0 ≤ o.size → 0 ≤ o.filledSize + fs →
      (e = .completeFill ∨ e = .partialFill) →
      (triggerEvent o e fs).2 = true → fillBoundsInvariant (triggerEvent o e fs).1 := by
    intro o e fs hsz hpos he hacc
    unfold triggerEvent at hacc ⊢
    cases h : stateTransitions o.state e with
    | none => rw [h] at hacc; simp at hacc
    | some s' =>
        rcases he with rfl | rfl
        · exact ⟨hsz, le_refl _⟩
        · exact ⟨le_min hpos hsz, min_le_right _ _⟩
  have hsum1 : ∀ (o : OrderContext) (fs : ℚ),
      sizeSumInvariant
        ({ o with filledSize := o.filledSize + fs,
                  remainingSize := o.size - (o.filledSize + fs) } : OrderContext) := by
    intro o fs
    simp only [sizeSumInvariant]
    ring
  refine ⟨?_, trig, ?_⟩
  · intro o fs
    unfold processFill
    by_cases hr : o.size - (o.filledSize + fs) ≤ 0
    · rw [if_pos hr]
      exact trigSum _ _ _ (hsum1 o fs)
    · rw [if_neg hr]
      exact trigSum _ _ _ (hsum1 o fs)
  · intro o fs hbnd hfs hacc
    obtain ⟨h0, hle⟩ := hbnd
    have hsz : (0 : ℚ) ≤ o.size := le_trans h0 hle
    have hpos : (0 : ℚ) ≤ (o.filledSize + fs) + fs := by linarith
    unfold processFill at hacc ⊢
    by_cases hr : o.size - (o.filledSize + fs) ≤ 0
    · rw [if_pos hr] at hacc ⊢
      exact trigBnd _ _ _ hsz hpos (Or.inl rfl) hacc
    · rw [if_neg hr] at hacc ⊢
      exact trigBnd _ _ _ hsz hpos (Or.inr rfl) hacc

/-- Witness for C2 amended: a 1-unit fill on a 2-unit open order keeps both
invariants (the partial-fill path double-counts the fill but the cap holds). -/
theorem c2_size_invariants_amended_witness :
    sizeSumInvariant (processFill (mkOrderContext { size := 2, state := .openState }) 1).1 ∧
    fillBoundsInvariant (processFill (mkOrderContext { size := 2, state := .openState }) 1).1 :=
  ⟨c2_size_invariants_amended.1 (mkOrderContext { size := 2, state := .openState }) 1,
   c2_size_invariants_amended.2.2 (mkOrderContext { size := 2, state := .openState }) 1
     (by constructor <;> norm_num [mkOrderContext]) (by norm_num)
     (by norm_num [mkOrderContext, processFill, triggerEvent, applyEventHandler,
       stateTransitions])⟩

/-! ### Circuit breaker (`app/services/hyperliquid_api_client.py`) -/

/-- `CircuitBreakerConfig` dataclass (hyperliquid_api_client.py lines 23-28). -/
structure CircuitBreakerConfig where
  failureThreshold : Nat := 5
  recoveryTimeout : ℚ := 60
  halfOpenMaxCalls : Nat := 3
  deriving DecidableEq, Repr

/-- `CircuitBreakerState` enum (hyperliquid_api_client.py lines 30-34). -/
inductive CircuitBreakerState where
  | closed
  | openBreaker
  | halfOpen
  deriving DecidableEq, Repr

/-- `CircuitBreaker` fields (hyperliquid_api_client.py lines 39-44).
Timestamps are rationals measured in seconds. -/
structure CircuitBreaker where
  config : CircuitBreakerConfig := {}
  state : CircuitBreakerState := .closed
  failureCount : Nat := 0
  lastFailureTime : Option ℚ := none
  halfOpenCalls : Nat := 0
  deriving DecidableEq, Repr

/-- `CircuitBreaker.can_execute` (hyperliquid_api_client.py lines 46-58); the
current time is passed explicitly since the source reads `datetime.utcnow()`.
In `OPEN` state the source always has `last_failure_time` set (`on_failure`
records it before any transition to `OPEN`); in the unreachable `none` case
the Python subtraction would raise, so the call does not proceed, modelled
here as a blocked call. -/
def canExecute (cb : CircuitBreaker) (now : ℚ) : CircuitBreaker × Bool :=
  match cb.state with
  | .closed => (cb, true)
  | .openBreaker =>
      match cb.lastFailureTime with
      | some t =>
          if now - t > cb.config.recoveryTimeout then
            ({ cb with state := .halfOpen, halfOpenCalls := 0 }, true)
          else (cb, false)
      | none => (cb, false)
  | .halfOpen => (cb, decide (cb.halfOpenCalls < cb.config.halfOpenMaxCalls))

/-- `CircuitBreaker.on_success` (hyperliquid_api_client.py lines 60-65). -/
def onSuccess (cb : CircuitBreaker) : CircuitBreaker :=
  let cb1 := if cb.state = .halfOpen then { cb with state := .closed } else cb
  { cb1 with failureCount := 0, halfOpenCalls := 0 }

/-- `CircuitBreaker.on_failure` (hyperliquid_api_client.py lines 67-75): the
failure count is incremented and the failure time recorded before the state
checks run. -/
def onFailure (cb : CircuitBreaker) (now : ℚ) : CircuitBreaker :=
  let cb1 := { cb with failureCount := cb.failureCount + 1, lastFailureTime := some now }
  if cb1.state = .halfOpen then { cb1 with state := .openBreaker }
  else if cb1.config.failureThreshold ≤ cb1.failureCount then
    { cb1 with state := .openBreaker }
  else cb1

/-- The circuit-breaker skeleton of `HyperliquidAPIClient._make_request`
(hyperliquid_api_client.py lines 134-215): a blocked call returns the
`"Circuit breaker is open"` error without any HTTP exchange; otherwise the
HTTP exchange (with its internal retry loop) runs and ends in exactly one
call to `on_success` (a 200 response) or `on_failure` (a 4xx, an exhausted
5xx/timeout retry loop, or an exception), summarised by `outcome`.  Returns
(breaker, ok, whether HTTP was issued). -/
def makeRequest (cb : CircuitBreaker) (now : ℚ) (outcome : Bool) :
    CircuitBreaker × Bool × Bool :=
  match canExecute cb now with
  | (cb1, false) => (cb1, false, false)
  | (cb1, true) =>
      if outcome then (onSuccess cb1, true, true)
      else (onFailure cb1 now, false, true)

/-- A run of consecutive failing requests at the given times. -/
def failStreak (cb : CircuitBreaker) (times : List ℚ) : CircuitBreaker :=
  times.foldl (fun c t => (makeRequest c t false).1) cb

lemma failStreak_closed (ts : List ℚ) : ∀ (cb : CircuitBreaker),
    cb.state = .closed → cb.config.failureThreshold = 5 →
    cb.failureCount + ts.length < 5 →
    (failStreak cb ts).state = .closed ∧
    (failStreak cb ts).failureCount = cb.failureCount + ts.length ∧
    (failStreak cb ts).config = cb.config := by
  induction ts with
  | nil => intro cb h1 _ _; exact ⟨h1, rfl, rfl⟩
  | cons t ts ih =>
      intro cb h1 h2 h3
      have hstep : (makeRequest cb t false).1 = onFailure cb t := by
        simp [makeRequest, canExecute, h1]
      have hcnt : cb.failureCount + 1 < 5 := by
        simp only [List.length_cons] at h3; omega
      have hth : ¬ (5 ≤ cb.failureCount + 1) := by omega
      have hopen : onFailure cb t =
          { cb with failureCount := cb.failureCount + 1, lastFailureTime := some t } := by
        simp [onFailure, h1, h2, hth]
      set cb' : CircuitBreaker :=
        { cb with failureCount := cb.failureCount + 1, lastFailureTime := some t } with hcb'
      obtain ⟨ha, hb, hc⟩ := ih cb' h1 h2
        (show cb.failureCount + 1 + ts.length < 5 by
          simp only [List.length_cons] at h3; omega)
      have hsplit : failStreak cb (t :: ts) = failStreak cb' ts := by
        show failStreak ((makeRequest cb t false).1) ts = failStreak cb' ts
        rw [hstep, hopen]
      rw [hsplit]
      refine ⟨ha, ?_, ?_⟩
      · rw [hb]
        show cb.failureCount + 1 + ts.length = cb.failureCount + (ts.length + 1)
        omega
      · rw [hc]

/-- C3: the circuit breaker follows the claimed automaton.  (1) From a fresh
(Closed) breaker, fewer than 5 consecutive failures leave it Closed and a 5th
consecutive failure moves it to Open.  (2) While Open and within the 60 s
recovery timeout, every call returns without issuing HTTP and leaves the
breaker unchanged.  (3) After the recovery timeout, `can_execute` moves the
breaker to HalfOpen and permits the call.  (4) In HalfOpen a call is permitted
iff fewer than `half_open_max_calls = 3` probe calls are recorded, a permitted
probe success returns the breaker to Closed, and a permitted probe failure
returns it to Open — so a state change happens after at most one permitted
probe, hence after at most 3. -/
theorem c3_circuit_breaker_automaton :
    (∀ ts : List ℚ, ts.length < 5 →
      (failStreak {} ts).state = .closed) ∧
    (∀ ts : List ℚ, ts.length = 5 →
      (failStreak {} ts).state = .openBreaker) ∧
    (∀ (cb : CircuitBreaker) (now t : ℚ) (outcome : Bool),
      cb.config = {} → cb.state = .openBreaker → cb.lastFailureTime = some t →
      now - t ≤ 60 → makeRequest cb now outcome = (cb, false, false)) ∧
    (∀ (cb : CircuitBreaker) (now t : ℚ),
      cb.config = {} → cb.state = .openBreaker → cb.lastFailureTime = some t →
      now - t > 60 →
      (canExecute cb now).1.state = .halfOpen ∧ (canExecute cb now).2 = true) ∧
    (∀ (cb : CircuitBreaker) (now : ℚ),
      cb.state = .halfOpen →
      ((canExecute cb now).2 = true ↔ cb.halfOpenCalls < cb.config.halfOpenMaxCalls)) ∧
    (∀ (cb : CircuitBreaker) (now : ℚ),
      cb.state = .halfOpen → cb.halfOpenCalls < cb.config.halfOpenMaxCalls →
      (makeRequest cb now true).1.state = .closed ∧
      (makeRequest cb now false).1.state = .openBreaker) := by
  refine ⟨?_, ?_, ?_, ?_, ?_, ?_⟩
  · intro ts hlen
    exact (failStreak_closed ts {} rfl rfl (by simpa using hlen)).1
  · intro ts hlen
    match ts, hlen with
    | t1 :: t2 :: t3 :: t4 :: t5 :: [], _ =>
        have h4 := failStreak_closed [t1, t2, t3, t4] {} rfl rfl (by simp)
        have hsplit : failStreak {} [t1, t2, t3, t4, t5] =
            (makeRequest (failStreak {} [t1, t2, t3, t4]) t5 false).1 := by
          simp [failStreak]
        rw [hsplit]
        set cb4 := failStreak {} [t1, t2, t3, t4] with hcb4
        have hthresh : cb4.config.failureThreshold = 5 := by rw [h4.2.2]
        have hexec : (makeRequest cb4 t5 false).1 = onFailure cb4 t5 := by
          simp [makeRequest, canExecute, h4.1]
        rw [hexec]
        have hc : cb4.failureCount = 4 := by simpa using h4.2.1
        simp [onFailure, h4.1, hthresh, hc]
  · intro cb now t outcome hcfg hst hlt hle
    have : ¬ (now - t > cb.config.recoveryTimeout) := by rw [hcfg]; simpa using hle
    simp [makeRequest, canExecute, hst, hlt, this]
  · intro cb now t hcfg hst hlt hgt
    have : now - t > cb.config.recoveryTimeout := by rw [hcfg]; simpa using hgt
    simp [canExecute, hst, hlt, this]
  · intro cb now hst
    simp [canExecute, hst]
  · intro cb now hst hcalls
    constructor
    · simp [makeRequest, canExecute, hst, hcalls, onSuccess]
    · simp [makeRequest, canExecute, hst, hcalls, onFailure]

/-- Witness for C3: a concrete run — 4 failures at times 0..3 leave the
breaker Closed, a 5th failure at time 4 opens it; in the opened state a call
at time 30 is blocked without HTTP; at time 100 the probe is allowed and moves
the breaker to HalfOpen, where a failing probe reopens it. -/
theorem c3_circuit_breaker_automaton_witness :
    (failStreak {} [0, 1, 2, 3]).state = .closed ∧
    (failStreak {} [0, 1, 2, 3, 4]).state = .openBreaker ∧
    makeRequest (failStreak {} [0, 1, 2, 3, 4]) 30 true =
      (failStreak {} [0, 1, 2, 3, 4], false, false) ∧
    (canExecute (failStreak {} [0, 1, 2, 3, 4]) 100).1.state = .halfOpen ∧
    (makeRequest { state := .halfOpen } 100 false).1.state = .openBreaker := by
  have h5 : (failStreak {} [0, 1, 2, 3, 4]).state = .openBreaker :=
    c3_circuit_breaker_automaton.2.1 [0, 1, 2, 3, 4] rfl
  have hcfg : (failStreak {} [0, 1, 2, 3, 4]).config = {} := by
    simp [failStreak, makeRequest, canExecute, onFailure]
  have hlt : (failStreak {} [0, 1, 2, 3, 4]).lastFailureTime = some 4 := by
    simp [failStreak, makeRequest, canExecute, onFailure]
  refine ⟨c3_circuit_breaker_automaton.1 [0, 1, 2, 3] (by norm_num), h5, ?_, ?_, ?_⟩
  · exact c3_circuit_breaker_automaton.2.2.1 _ 30 4 true hcfg h5 hlt (by norm_num)
  · exact (c3_circuit_breaker_automaton.2.2.2.1 _ 100 4 hcfg h5 hlt (by norm_num)).1
  · exact (c3_circuit_breaker_automaton.2.2.2.2.2 { state := .halfOpen } 100 rfl
      (by norm_num)).2

/-! ### Upstream multiplexer and subscription router (`app/websocket.py`) -/

/-- A frame passed to `subscribe_to_hyperliquid` (websocket.py lines 85-94):
`method` is `"subscribe"` or `"unsubscribe"`, `subType` the subscription
`type`, `user` the optional user address. -/
structure UpstreamFrame where
  method : String
  subType : String
  user : Option String
  deriving DecidableEq, Repr

/-- The `HyperliquidWebSocketManager` fields driving the subscription router
(websocket.py lines 19-28).  Downstream clients are identified by numbers;
`clientSubscriptions` is the `client_subscriptions` dict restricted to its
`userAddress` entry (the `subscriptions` entry is the constant
`['webData2', 'userEvents']`).  `upstreamCount` tracks the net number of
active upstream subscriptions per (type, user) pair produced by the frames
the manager sends; the model covers a session in which `is_connected` stays
true, so every frame passed to `subscribe_to_hyperliquid` reaches the
upstream. -/
structure WSManager where
  clientConnections : List Nat := []
  clientSubscriptions : List (Nat × String) := []
  subscribedUsers : List String := []
  upstreamCount : String → String → Int := fun _ _ => 0

/-- Python `str.lower()` as applied to the hex user addresses (ASCII). -/
def lowerChar (ch : Char) : Char :=
  if 65 ≤ ch.toNat ∧ ch.toNat ≤ 90 then Char.ofNat (ch.toNat + 32) else ch

/-- Python `str.lower()` on a whole address string. -/
def lowerStr (s : String) : String := ⟨s.data.map lowerChar⟩

/-- Dict lookup on the `client_subscriptions` association list. -/
def lookupSub : List (Nat × String) → Nat → Option String
  | [], _ => none
  | p :: ps, c => if p.1 = c then some p.2 else lookupSub ps c

/-- Dict deletion on the `client_subscriptions` association list. -/
def removeSub (subs : List (Nat × String)) (c : Nat) : List (Nat × String) :=
  subs.filter (fun p => p.1 != c)

/-- The effect of one sent frame on the net upstream subscription count. -/
def applyFrame (cnt : String → String → Int) (f : UpstreamFrame) :
    String → String → Int :=
  match f.user with
  | none => cnt
  | some u => fun ch v =>
      if ch = f.subType ∧ v = u then
        (if f.method = "subscribe" then cnt ch v + 1 else cnt ch v - 1)
      else cnt ch v

def applyFrames (cnt : String → String → Int) (fs : List UpstreamFrame) :
    String → String → Int :=
  fs.foldl applyFrame cnt

/-- `connect_to_hyperliquid` (websocket.py lines 30-50), successful path: the
connection is (re)established and the only subscription issued is `allMids`;
no code path re-issues the per-user subscriptions recorded in
`subscribed_users`. -/
def connectToHyperliquid (m : WSManager) : WSManager × List UpstreamFrame :=
  (m, [⟨"subscribe", "allMids", none⟩])

/-- `schedule_reconnect` → `_reconnect` (websocket.py lines 72-83): after the
5 s delay the manager just calls `connect_to_hyperliquid` again. -/
def reconnect (m : WSManager) : WSManager × List UpstreamFrame :=
  connectToHyperliquid m

/-- `unsubscribe_user_from_hyperliquid` (websocket.py lines 359-373): sends
the `webData2` unsubscribe frame, then the `userEvents` one. -/
def unsubscribeUserFrames (user : String) : List UpstreamFrame :=
  [⟨"unsubscribe", "webData2", some user⟩, ⟨"unsubscribe", "userEvents", some user⟩]

/-- The two subscribe frames issued for a newly subscribed user
(websocket.py lines 317-332): `userEvents` first, then `webData2`. -/
def subscribeUserFrames (user : String) : List UpstreamFrame :=
  [⟨"subscribe", "userEvents", some user⟩, ⟨"subscribe", "webData2", some user⟩]

/-- The `still_subscribed` generator expression of `_cleanup_user_subscription`
and `remove_client` (websocket.py lines 242-246 and 348-352): some other
still-connected client's subscription record references `user`. -/
def stillSubscribed (m : WSManager) (user : String) (excluding : Nat) : Bool :=
  m.clientSubscriptions.any
    (fun p => p.2 == user && p.1 != excluding && m.clientConnections.contains p.1)

/-- `_cleanup_user_subscription` (websocket.py lines 346-357). -/
def cleanupUserSubscription (m : WSManager) (user : String) (excluding : Nat) :
    WSManager × List UpstreamFrame :=
  if !stillSubscribed m user excluding && m.subscribedUsers.contains user then
    ({ m with subscribedUsers := m.subscribedUsers.erase user },
     unsubscribeUserFrames user)
  else (m, [])

/-- `handle_user_data_subscription` (websocket.py lines 287-344): missing
address → error reply only; otherwise lowercase the address, clean up the
client's previous different subscription if any, store the new subscription
record, and subscribe upstream (`userEvents` first, then `webData2`) only if
the user is not yet in `subscribed_users`. -/
def handleUserDataSubscription (m : WSManager) (c : Nat) (payloadUser : Option String) :
    WSManager × List UpstreamFrame :=
  match payloadUser with
  | none => (m, [])
  | some ua =>
      let user := lowerStr ua
      let step1 :=
        match lookupSub m.clientSubscriptions c with
        | some old => if old ≠ user then cleanupUserSubscription m old c else (m, [])
        | none => (m, [])
      let m1 := step1.1
      let m2 := { m1 with
        clientSubscriptions := (c, user) :: removeSub m1.clientSubscriptions c }
      if m2.subscribedUsers.contains user then (m2, step1.2)
      else ({ m2 with subscribedUsers := user :: m2.subscribedUsers },
            step1.2 ++ subscribeUserFrames user)

/-- `handle_user_data_unsubscription` (websocket.py lines 375-402): only acts
when the client's stored subscription matches the lowercased address; deletes
the record and runs the cleanup. -/
def handleUserDataUnsubscription (m : WSManager) (c : Nat) (payloadUser : Option String) :
    WSManager × List UpstreamFrame :=
  match payloadUser with
  | none => (m, [])
  | some ua =>
      let user := lowerStr ua
      match lookupSub m.clientSubscriptions c with
      | some old =>
          if old = user then
            cleanupUserSubscription
              { m with clientSubscriptions := removeSub m.clientSubscriptions c } user c
          else (m, [])
      | none => (m, [])

/-- `remove_client` (websocket.py lines 231-256): discard the connection; if
the client had a subscription record, unsubscribe upstream and drop the user
from `subscribed_users` when no other connected client references it, then
delete the record. -/
def removeClient (m : WSManager) (c : Nat) : WSManager × List UpstreamFrame :=
  let m0 := { m with clientConnections := m.clientConnections.erase c }
  match lookupSub m0.clientSubscriptions c with
  | none => (m0, [])
  | some user =>
      let step1 :=
        if !stillSubscribed m0 user c then
          ({ m0 with subscribedUsers := m0.subscribedUsers.erase user },
           unsubscribeUserFrames user)
        else (m0, [])
      ({ step1.1 with clientSubscriptions := removeSub step1.1.clientSubscriptions c },
       step1.2)

/-- `add_client` (websocket.py lines 219-229): accept and record the
connection (`client_connections` is a Python set). -/
def addClient (m : WSManager) (c : Nat) : WSManager :=
  { m with clientConnections :=
      if m.clientConnections.contains c then m.clientConnections
      else c :: m.clientConnections }

/-- The operations of the subscription router visible to downstream clients. -/
inductive RouterOp where
  | clientConnect (c : Nat)
  | subscribeUserData (c : Nat) (payloadUser : Option String)
  | unsubscribeUserData (c : Nat) (payloadUser : Option String)
  | clientDisconnect (c : Nat)

/-- One router operation applied to the manager state, with the frames it
sends folded into the net upstream subscription count. -/
def applyOp (m : WSManager) (op : RouterOp) : WSManager :=
  match op with
  | .clientConnect c => addClient m c
  | .subscribeUserData c pu =>
      let r := handleUserDataSubscription m c pu
      { r.1 with upstreamCount := applyFrames m.upstreamCount r.2 }
  | .unsubscribeUserData c pu =>
      let r := handleUserDataUnsubscription m c pu
      { r.1 with upstreamCount := applyFrames m.upstreamCount r.2 }
  | .clientDisconnect c =>
      let r := removeClient m c
      { r.1 with upstreamCount := applyFrames m.upstreamCount r.2 }

/-- Router states reachable from the initial empty manager.  The subscribe and
unsubscribe handlers are invoked by `websocket_endpoint` only for clients
whose connection was previously accepted by `add_client`. -/
inductive Reachable : WSManager → Prop where
  | init : Reachable {}
  | connect {m} (c : Nat) : Reachable m → Reachable (applyOp m (.clientConnect c))
  | subscribe {m} (c : Nat) (pu : Option String) : Reachable m →
      c ∈ m.clientConnections → Reachable (applyOp m (.subscribeUserData c pu))
  | unsubscribe {m} (c : Nat) (pu : Option String) : Reachable m →
      c ∈ m.clientConnections → Reachable (applyOp m (.unsubscribeUserData c pu))
  | disconnect {m} (c : Nat) : Reachable m → Reachable (applyOp m (.clientDisconnect c))

/-- Some connected client's subscription record references `u`
(the right-hand side of the C7 invariant). -/
def subRefs (m : WSManager) (u : String) : Prop :=
  ∃ c, c ∈ m.clientConnections ∧ lookupSub m.clientSubscriptions c = some u

/-- The router's internal well-formedness plus the C7 invariant and the
upstream-subscription count invariant. -/
def routerInv (m : WSManager) : Prop :=
  m.clientConnections.Nodup ∧
  (m.clientSubscriptions.map Prod.fst).Nodup ∧
  (∀ p ∈ m.clientSubscriptions, p.1 ∈ m.clientConnections) ∧
  m.subscribedUsers.Nodup ∧
  (∀ u, u ∈ m.subscribedUsers ↔ subRefs m u) ∧
  (∀ ch u, m.upstreamCount ch u =
    if (ch = "userEvents" ∨ ch = "webData2") ∧ u ∈ m.subscribedUsers then 1 else 0)

/-! Helper lemmas about the association-list dict and the frame counts. -/

lemma lookupSub_mem {subs : List (Nat × String)} {c : Nat} {u : String}
    (h : lookupSub subs c = some u) : (c, u) ∈ subs := by
  induction subs with
  | nil => simp [lookupSub] at h
  | cons p ps ih =>
      by_cases hp : p.1 = c
      · rw [lookupSub, if_pos hp] at h
        have : p = (c, u) := Prod.ext hp (Option.some.inj h)
        rw [← this]
        exact List.mem_cons_self p ps
      · rw [lookupSub, if_neg hp] at h
        exact List.mem_cons_of_mem p (ih h)

lemma mem_lookupSub {subs : List (Nat × String)}
    (hn : (subs.map Prod.fst).Nodup) {p : Nat × String} (hp : p ∈ subs) :
    lookupSub subs p.1 = some p.2 := by
  induction subs with
  | nil => simp at hp
  | cons q qs ih =>
      rw [List.map_cons, List.nodup_cons] at hn
      rcases List.mem_cons.mp hp with rfl | hmem
      · rw [lookupSub, if_pos rfl]
      · have hq : q.1 ≠ p.1 := by
          intro he
          exact hn.1 (he ▸ List.mem_map_of_mem Prod.fst hmem)
        rw [lookupSub, if_neg hq]
        exact ih hn.2 hmem

lemma mem_removeSub {subs : List (Nat × String)} {c : Nat} {p : Nat × String} :
    p ∈ removeSub subs c ↔ p ∈ subs ∧ p.1 ≠ c := by
  simp [removeSub, List.mem_filter]

lemma removeSub_map_fst_nodup {subs : List (Nat × String)} {c : Nat}
    (hn : (subs.map Prod.fst).Nodup) : ((removeSub subs c).map Prod.fst).Nodup :=
  List.Nodup.sublist (List.Sublist.map Prod.fst (List.filter_sublist subs)) hn

lemma lookupSub_removeSub_self (subs : List (Nat × String)) (c : Nat) :
    lookupSub (removeSub subs c) c = none := by
  induction subs with
  | nil => rfl
  | cons p ps ih =>
      by_cases hp : p.1 = c
      · rw [removeSub, List.filter_cons, if_neg (by simp [hp])]
        exact ih
      · rw [removeSub, List.filter_cons, if_pos (by simp [hp]), lookupSub, if_neg hp]
        exact ih

lemma lookupSub_removeSub_ne (subs : List (Nat × String)) {c d : Nat} (h : d ≠ c) :
    lookupSub (removeSub subs c) d = lookupSub subs d := by
  induction subs with
  | nil => rfl
  | cons p ps ih =>
      by_cases hp : p.1 = c
      · rw [removeSub, List.filter_cons, if_neg (by simp [hp])]
        rw [lookupSub, if_neg (by rw [hp]; exact fun he => h he.symm)]
        exact ih
      · rw [removeSub, List.filter_cons, if_pos (by simp [hp])]
        by_cases hd : p.1 = d
        · rw [lookupSub, if_pos hd, lookupSub, if_pos hd]
        · rw [lookupSub, if_neg hd, lookupSub, if_neg hd]
          exact ih

lemma lookupSub_cons_self (subs : List (Nat × String)) (c : Nat) (u : String) :
    lookupSub ((c, u) :: subs) c = some u := by
  rw [lookupSub, if_pos rfl]

lemma lookupSub_cons_ne (subs : List (Nat × String)) {c d : Nat} (u : String)
    (h : c ≠ d) : lookupSub ((c, u) :: subs) d = lookupSub subs d := by
  rw [lookupSub, if_neg h]

lemma stillSubscribed_iff {m : WSManager} {user : String} {excl : Nat}
    (hn : (m.clientSubscriptions.map Prod.fst).Nodup) :
    stillSubscribed m user excl = true ↔
      ∃ c, c ≠ excl ∧ c ∈ m.clientConnections ∧
        lookupSub m.clientSubscriptions c = some user := by
  unfold stillSubscribed
  rw [List.any_eq_true]
  constructor
  · rintro ⟨p, hp, hcond⟩
    simp only [Bool.and_eq_true, beq_iff_eq, bne_iff_ne] at hcond
    obtain ⟨⟨hval, hne⟩, hconn⟩ := hcond
    refine ⟨p.1, hne, by simpa using hconn, ?_⟩
    rw [mem_lookupSub hn hp, hval]
  · rintro ⟨c, hne, hc, hl⟩
    refine ⟨(c, user), lookupSub_mem hl, ?_⟩
    simp [hne, hc]

lemma subRefs_update (K : List (Nat × String)) (C : List Nat) (c : Nat)
    (user u : String) :
    (∃ d, d ∈ C ∧ lookupSub ((c, user) :: removeSub K c) d = some u) ↔
      ((c ∈ C ∧ u = user) ∨ ∃ d, d ≠ c ∧ d ∈ C ∧ lookupSub K d = some u) := by
  constructor
  · rintro ⟨d, hd, hl⟩
    by_cases hdc : c = d
    · subst hdc
      rw [lookupSub_cons_self] at hl
      exact Or.inl ⟨hd, (Option.some.inj hl).symm⟩
    · rw [lookupSub_cons_ne _ _ hdc, lookupSub_removeSub_ne _ (Ne.symm hdc)] at hl
      exact Or.inr ⟨d, Ne.symm hdc, hd, hl⟩
  · rintro (⟨hc, rfl⟩ | ⟨d, hdc, hd, hl⟩)
    · exact ⟨c, hc, lookupSub_cons_self _ _ _⟩
    · refine ⟨d, hd, ?_⟩
      rw [lookupSub_cons_ne _ _ (Ne.symm hdc), lookupSub_removeSub_ne _ hdc]
      exact hl

lemma subRefs_remove (K : List (Nat × String)) (C : List Nat) (c : Nat)
    (u : String) :
    (∃ d, d ∈ C ∧ lookupSub (removeSub K c) d = some u) ↔
      ∃ d, d ≠ c ∧ d ∈ C ∧ lookupSub K d = some u := by
  constructor
  · rintro ⟨d, hd, hl⟩
    by_cases hdc : d = c
    · subst hdc
      rw [lookupSub_removeSub_self] at hl
      exact absurd hl (by simp)
    · rw [lookupSub_removeSub_ne _ hdc] at hl
      exact ⟨d, hdc, hd, hl⟩
  · rintro ⟨d, hdc, hd, hl⟩
    refine ⟨d, hd, ?_⟩
    rw [lookupSub_removeSub_ne _ hdc]
    exact hl

lemma applyFrames_append (cnt : String → String → Int)
    (a b : List UpstreamFrame) :
    applyFrames cnt (a ++ b) = applyFrames (applyFrames cnt a) b :=
  List.foldl_append _ _ _ _

lemma applyFrames_unsub (cnt : String → String → Int) (w ch u : String) :
    applyFrames cnt (unsubscribeUserFrames w) ch u =
      if (ch = "userEvents" ∨ ch = "webData2") ∧ u = w then cnt ch u - 1
      else cnt ch u := by
  show applyFrame (applyFrame cnt ⟨"unsubscribe", "webData2", some w⟩)
      ⟨"unsubscribe", "userEvents", some w⟩ ch u = _
  simp only [applyFrame]
  by_cases hu : u = w
  · by_cases h1 : ch = "userEvents"
    · have h2 : ¬ (ch = "webData2") := by rw [h1]; decide
      simp [h1, h2, hu]
    · by_cases h2 : ch = "webData2"
      · simp [h1, h2, hu]
      · simp [h1, h2, hu]
  · simp [hu]

lemma applyFrames_sub (cnt : String → String → Int) (w ch u : String) :
    applyFrames cnt (subscribeUserFrames w) ch u =
      if (ch = "userEvents" ∨ ch = "webData2") ∧ u = w then cnt ch u + 1
      else cnt ch u := by
  show applyFrame (applyFrame cnt ⟨"subscribe", "userEvents", some w⟩)
      ⟨"subscribe", "webData2", some w⟩ ch u = _
  simp only [applyFrame]
  by_cases hu : u = w
  · by_cases h1 : ch = "userEvents"
    · have h2 : ¬ (ch = "webData2") := by rw [h1]; decide
      simp [h1, h2, hu]
    · by_cases h2 : ch = "webData2"
      · simp [h1, h2, hu]
      · simp [h1, h2, hu]
  · simp [hu]

lemma cleanup_cases (m : WSManager) (user : String) (excl : Nat) :
    (cleanupUserSubscription m user excl =
        ({ m with subscribedUsers := m.subscribedUsers.erase user },
         unsubscribeUserFrames user) ∧
      stillSubscribed m user excl = false ∧ user ∈ m.subscribedUsers) ∨
    (cleanupUserSubscription m user excl = (m, []) ∧
      (stillSubscribed m user excl = true ∨ user ∉ m.subscribedUsers)) := by
  unfold cleanupUserSubscription
  by_cases h1 : stillSubscribed m user excl
  · right
    simp [h1]
  · by_cases h2 : user ∈ m.subscribedUsers
    · left
      simp only [h1, Bool.not_false, Bool.true_and]
      rw [if_pos (by simpa using h2)]
      exact ⟨rfl, by simp [h1], h2⟩
    · right
      simp only [h1, Bool.not_false, Bool.true_and]
      rw [if_neg (by simpa using h2)]
      exact ⟨rfl, Or.inr h2⟩

lemma inv_connect {m : WSManager} (hInv : routerInv m) (c : Nat) :
    routerInv (applyOp m (.clientConnect c)) := by
  obtain ⟨i1, i2, i3, i4, i5, i6⟩ := hInv
  show routerInv (addClient m c)
  unfold addClient
  by_cases hc : m.clientConnections.contains c
  · rw [if_pos hc]
    exact ⟨i1, i2, i3, i4, i5, i6⟩
  · rw [if_neg hc]
    have hcm : c ∉ m.clientConnections := by simpa using hc
    refine ⟨List.nodup_cons.mpr ⟨hcm, i1⟩, i2, ?_, i4, ?_, i6⟩
    · intro p hp
      exact List.mem_cons_of_mem _ (i3 p hp)
    · intro u
      rw [i5 u]
      unfold subRefs
      constructor
      · rintro ⟨d, hd, hl⟩
        exact ⟨d, List.mem_cons_of_mem _ hd, hl⟩
      · rintro ⟨d, hd, hl⟩
        rcases List.mem_cons.mp hd with rfl | hd'
        · exact absurd (i3 _ (lookupSub_mem hl)) hcm
        · exact ⟨d, hd', hl⟩

lemma inv_disconnect {m : WSManager} (hInv : routerInv m) (c : Nat) :
    routerInv (applyOp m (.clientDisconnect c)) := by
  obtain ⟨i1, i2, i3, i4, i5, i6⟩ := hInv
  have hCe : ∀ d, d ∈ m.clientConnections.erase c ↔ d ≠ c ∧ d ∈ m.clientConnections :=
    fun d => i1.mem_erase_iff
  show routerInv
    (let r := removeClient m c
     { r.1 with upstreamCount := applyFrames m.upstreamCount r.2 })
  unfold removeClient
  simp only []
  cases hL : lookupSub m.clientSubscriptions c with
  | none =>
      refine ⟨i1.erase c, i2, ?_, i4, ?_, i6⟩
      · intro p hp
        have hpc : p.1 ≠ c := by
          intro he
          rw [← he, mem_lookupSub i2 hp] at hL
          exact Option.noConfusion hL
        exact (hCe p.1).mpr ⟨hpc, i3 p hp⟩
      · intro u
        rw [i5 u]
        unfold subRefs
        constructor
        · rintro ⟨d, hd, hl⟩
          have hdc : d ≠ c := by
            intro he
            rw [he, hL] at hl
            exact Option.noConfusion hl
          exact ⟨d, (hCe d).mpr ⟨hdc, hd⟩, hl⟩
        · rintro ⟨d, hd, hl⟩
          exact ⟨d, ((hCe d).mp hd).2, hl⟩
  | some user =>
      have hcC : c ∈ m.clientConnections := i3 _ (lookupSub_mem hL)
      have huS : user ∈ m.subscribedUsers := (i5 user).mpr ⟨c, hcC, hL⟩
      by_cases hs : stillSubscribed
          { m with clientConnections := m.clientConnections.erase c } user c
      · simp only [hs, Bool.not_true, Bool.false_eq_true, if_false]
        refine ⟨i1.erase c, removeSub_map_fst_nodup i2, ?_, i4, ?_, i6⟩
        · intro p hp
          obtain ⟨hpK, hpc⟩ := mem_removeSub.mp hp
          exact (hCe p.1).mpr ⟨hpc, i3 p hpK⟩
        · intro u
          show u ∈ m.subscribedUsers ↔ ∃ d, d ∈ m.clientConnections.erase c ∧
            lookupSub (removeSub m.clientSubscriptions c) d = some u
          rw [i5 u]
          unfold subRefs
          constructor
          · rintro ⟨d, hd, hl⟩
            by_cases hdc : d = c
            · rw [hdc, hL] at hl
              obtain rfl : user = u := Option.some.inj hl
              obtain ⟨d', hd'c, hd'C, hl'⟩ :=
                (stillSubscribed_iff
                  (m := { m with clientConnections := m.clientConnections.erase c }) i2).mp hs
              exact ⟨d', hd'C, by rw [lookupSub_removeSub_ne _ hd'c]; exact hl'⟩
            · exact ⟨d, (hCe d).mpr ⟨hdc, hd⟩,
                by rw [lookupSub_removeSub_ne _ hdc]; exact hl⟩
          · rintro ⟨d, hd, hl⟩
            have hdc : d ≠ c := ((hCe d).mp hd).1
            rw [lookupSub_removeSub_ne _ hdc] at hl
            exact ⟨d, ((hCe d).mp hd).2, hl⟩
      · have hs' : stillSubscribed
            { m with clientConnections := m.clientConnections.erase c } user c = false := by
          simpa using hs
        simp only [hs', Bool.not_false, if_true]
        refine ⟨i1.erase c, removeSub_map_fst_nodup i2, ?_, i4.erase user, ?_, ?_⟩
        · intro p hp
          obtain ⟨hpK, hpc⟩ := mem_removeSub.mp hp
          exact (hCe p.1).mpr ⟨hpc, i3 p hpK⟩
        · intro u
          show u ∈ m.subscribedUsers.erase user ↔ ∃ d, d ∈ m.clientConnections.erase c ∧
            lookupSub (removeSub m.clientSubscriptions c) d = some u
          rw [i4.mem_erase_iff]
          constructor
          · rintro ⟨huu, huS'⟩
            obtain ⟨d, hd, hl⟩ := (i5 u).mp huS'
            have hdc : d ≠ c := by
              intro he
              subst he
              rw [hL] at hl
              exact huu (Option.some.inj hl).symm
            exact ⟨d, (hCe d).mpr ⟨hdc, hd⟩,
              by rw [lookupSub_removeSub_ne _ hdc]; exact hl⟩
          · rintro ⟨d, hd, hl⟩
            have hdc : d ≠ c := ((hCe d).mp hd).1
            rw [lookupSub_removeSub_ne _ hdc] at hl
            constructor
            · intro he
              subst he
              have hstill : stillSubscribed
                  { m with clientConnections := m.clientConnections.erase c } u c = true :=
                (stillSubscribed_iff
                  (m := { m with clientConnections := m.clientConnections.erase c }) i2).mpr
                  ⟨d, hdc, hd, hl⟩
              rw [hs'] at hstill
              exact Bool.noConfusion hstill
            · exact (i5 u).mpr ⟨d, ((hCe d).mp hd).2, hl⟩
        · intro ch u
          show applyFrames m.upstreamCount (unsubscribeUserFrames user) ch u = _
          rw [applyFrames_unsub]
          by_cases hcu : (ch = "userEvents" ∨ ch = "webData2") ∧ u = user
          · rw [if_pos hcu, i6 ch u, if_pos ⟨hcu.1, hcu.2 ▸ huS⟩, if_neg ?_]
            · norm_num
            · rintro ⟨-, hmem⟩
              rw [hcu.2] at hmem
              exact (i4.mem_erase_iff.mp hmem).1 rfl
          · rw [if_neg hcu, i6 ch u]
            by_cases hch : ch = "userEvents" ∨ ch = "webData2"
            · by_cases huu : u = user
              · exact absurd ⟨hch, huu⟩ hcu
              · have hiff : u ∈ m.subscribedUsers.erase user ↔ u ∈ m.subscribedUsers := by
                  rw [i4.mem_erase_iff]
                  exact and_iff_right huu
                by_cases huS' : u ∈ m.subscribedUsers
                · rw [if_pos ⟨hch, huS'⟩, if_pos ⟨hch, hiff.mpr huS'⟩]
                · rw [if_neg (fun h => huS' h.2), if_neg (fun h => huS' (hiff.mp h.2))]
            · rw [if_neg (fun h => hch h.1), if_neg (fun h => hch h.1)]

lemma count_unsub {S : List String} {F : String → String → Int} (hnd : S.Nodup)
    (hF : ∀ ch u, F ch u =
      if (ch = "userEvents" ∨ ch = "webData2") ∧ u ∈ S then 1 else 0)
    {old : String} (hold : old ∈ S) :
    ∀ ch u, applyFrames F (unsubscribeUserFrames old) ch u =
      if (ch = "userEvents" ∨ ch = "webData2") ∧ u ∈ S.erase old then 1 else 0 := by
  intro ch u
  rw [applyFrames_unsub]
  by_cases hcu : (ch = "userEvents" ∨ ch = "webData2") ∧ u = old
  · rw [if_pos hcu, hF ch u, if_pos ⟨hcu.1, hcu.2 ▸ hold⟩, if_neg ?_]
    · norm_num
    · rintro ⟨-, hmem⟩
      rw [hcu.2] at hmem
      exact (hnd.mem_erase_iff.mp hmem).1 rfl
  · rw [if_neg hcu, hF ch u]
    by_cases hch : ch = "userEvents" ∨ ch = "webData2"
    · by_cases huu : u = old
      · exact absurd ⟨hch, huu⟩ hcu
      · have hiff : u ∈ S.erase old ↔ u ∈ S := by
          rw [hnd.mem_erase_iff]
          exact and_iff_right huu
        by_cases huS : u ∈ S
        · rw [if_pos ⟨hch, huS⟩, if_pos ⟨hch, hiff.mpr huS⟩]
        · rw [if_neg (fun h => huS h.2), if_neg (fun h => huS (hiff.mp h.2))]
    · rw [if_neg (fun h => hch h.1), if_neg (fun h => hch h.1)]

lemma count_sub {S : List String} {F : String → String → Int}
    (hF : ∀ ch u, F ch u =
      if (ch = "userEvents" ∨ ch = "webData2") ∧ u ∈ S then 1 else 0)
    {user : String} (huser : user ∉ S) :
    ∀ ch u, applyFrames F (subscribeUserFrames user) ch u =
      if (ch = "userEvents" ∨ ch = "webData2") ∧ u ∈ user :: S then 1 else 0 := by
  intro ch u
  rw [applyFrames_sub]
  by_cases hcu : (ch = "userEvents" ∨ ch = "webData2") ∧ u = user
  · rw [if_pos hcu, hF ch u, if_neg ?_, if_pos ⟨hcu.1, by rw [hcu.2]; exact List.mem_cons_self _ _⟩]
    · norm_num
    · rintro ⟨-, hmem⟩
      rw [hcu.2] at hmem
      exact huser hmem
  · rw [if_neg hcu, hF ch u]
    by_cases hch : ch = "userEvents" ∨ ch = "webData2"
    · by_cases huu : u = user
      · exact absurd ⟨hch, huu⟩ hcu
      · have hiff : u ∈ user :: S ↔ u ∈ S := by
          rw [List.mem_cons]
          exact or_iff_right huu
        by_cases huS : u ∈ S
        · rw [if_pos ⟨hch, huS⟩, if_pos ⟨hch, hiff.mpr huS⟩]
        · rw [if_neg (fun h => huS h.2), if_neg (fun h => huS (hiff.mp h.2))]
    · rw [if_neg (fun h => hch h.1), if_neg (fun h => hch h.1)]

lemma count_unsub_sub {S : List String} {F : String → String → Int} (hnd : S.Nodup)
    (hF : ∀ ch u, F ch u =
      if (ch = "userEvents" ∨ ch = "webData2") ∧ u ∈ S then 1 else 0)
    {old user : String} (hold : old ∈ S) (huser : user ∉ S) :
    ∀ ch u, applyFrames F (unsubscribeUserFrames old ++ subscribeUserFrames user) ch u =
      if (ch = "userEvents" ∨ ch = "webData2") ∧ u ∈ user :: S.erase old then 1 else 0 := by
  intro ch u
  rw [applyFrames_append]
  exact count_sub (count_unsub hnd hF hold)
    (fun hmem => huser (List.mem_of_mem_erase hmem)) ch u

lemma i2_update {K : List (Nat × String)} (h : (K.map Prod.fst).Nodup)
    (c : Nat) (user : String) :
    (((c, user) :: removeSub K c).map Prod.fst).Nodup := by
  rw [List.map_cons, List.nodup_cons]
  refine ⟨fun hmem => ?_, removeSub_map_fst_nodup h⟩
  obtain ⟨p, hp, he⟩ := List.mem_map.mp hmem
  exact (mem_removeSub.mp hp).2 he

lemma inv_unsubscribe {m : WSManager} (hInv : routerInv m) (c : Nat)
    (pu : Option String) (hc : c ∈ m.clientConnections) :
    routerInv (applyOp m (.unsubscribeUserData c pu)) := by
  obtain ⟨i1, i2, i3, i4, i5, i6⟩ := hInv
  show routerInv
    (let r := handleUserDataUnsubscription m c pu
     { r.1 with upstreamCount := applyFrames m.upstreamCount r.2 })
  cases pu with
  | none => exact ⟨i1, i2, i3, i4, i5, i6⟩
  | some ua =>
      unfold handleUserDataUnsubscription
      simp only []
      cases hL : lookupSub m.clientSubscriptions c with
      | none => exact ⟨i1, i2, i3, i4, i5, i6⟩
      | some old =>
          by_cases hou : old = lowerStr ua
          · simp only [if_pos hou]
            have huS : old ∈ m.subscribedUsers := (i5 old).mpr ⟨c, hc, hL⟩
            have hK2 : ((removeSub m.clientSubscriptions c).map Prod.fst).Nodup :=
              removeSub_map_fst_nodup i2
            have hi3 : ∀ p ∈ removeSub m.clientSubscriptions c, p.1 ∈ m.clientConnections :=
              fun p hp => i3 p (mem_removeSub.mp hp).1
            rw [← hou]
            rcases cleanup_cases
                { m with clientSubscriptions := removeSub m.clientSubscriptions c } old c with
              ⟨heq, hstill, hmem⟩ | ⟨heq, hside⟩
            · rw [heq]
              refine ⟨i1, hK2, hi3, i4.erase old, ?_, ?_⟩
              · intro u
                show u ∈ m.subscribedUsers.erase old ↔ ∃ d, d ∈ m.clientConnections ∧
                  lookupSub (removeSub m.clientSubscriptions c) d = some u
                rw [i4.mem_erase_iff, subRefs_remove]
                constructor
                · rintro ⟨huu, huS'⟩
                  obtain ⟨d, hd, hl⟩ := (i5 u).mp huS'
                  have hdc : d ≠ c := by
                    intro he
                    rw [he, hL] at hl
                    exact huu (Option.some.inj hl).symm
                  exact ⟨d, hdc, hd, hl⟩
                · rintro ⟨d, hdc, hd, hl⟩
                  refine ⟨fun he => ?_, (i5 u).mpr ⟨d, hd, hl⟩⟩
                  rw [he] at hl
                  have : stillSubscribed
                      { m with clientSubscriptions := removeSub m.clientSubscriptions c }
                      old c = true :=
                    (stillSubscribed_iff
                      (m := { m with clientSubscriptions := removeSub m.clientSubscriptions c })
                      hK2).mpr
                      ⟨d, hdc, hd, by rw [lookupSub_removeSub_ne _ hdc]; exact hl⟩
                  rw [hstill] at this
                  exact Bool.noConfusion this
              · exact count_unsub i4 i6 huS
            · rw [heq]
              have hstill : stillSubscribed
                  { m with clientSubscriptions := removeSub m.clientSubscriptions c }
                  old c = true := by
                rcases hside with h | h
                · exact h
                · exact absurd huS h
              refine ⟨i1, hK2, hi3, i4, ?_, i6⟩
              intro u
              show u ∈ m.subscribedUsers ↔ ∃ d, d ∈ m.clientConnections ∧
                lookupSub (removeSub m.clientSubscriptions c) d = some u
              rw [subRefs_remove]
              constructor
              · intro huS'
                obtain ⟨d, hd, hl⟩ := (i5 u).mp huS'
                by_cases hdc : d = c
                · rw [hdc, hL] at hl
                  obtain rfl : old = u := Option.some.inj hl
                  obtain ⟨d', hd'c, hd'C, hl'⟩ :=
                    (stillSubscribed_iff
                      (m := { m with clientSubscriptions := removeSub m.clientSubscriptions c })
                      hK2).mp hstill
                  rw [lookupSub_removeSub_ne _ hd'c] at hl'
                  exact ⟨d', hd'c, hd'C, hl'⟩
                · exact ⟨d, hdc, hd, hl⟩
              · rintro ⟨d, hdc, hd, hl⟩
                exact (i5 u).mpr ⟨d, hd, hl⟩
          · simp only [if_neg hou]
            exact ⟨i1, i2, i3, i4, i5, i6⟩

lemma inv_subscribe {m : WSManager} (hInv : routerInv m) (c : Nat)
    (pu : Option String) (hc : c ∈ m.clientConnections) :
    routerInv (applyOp m (.subscribeUserData c pu)) := by
  obtain ⟨i1, i2, i3, i4, i5, i6⟩ := hInv
  have i5c : ∀ u, u ∈ m.subscribedUsers ↔
      (lookupSub m.clientSubscriptions c = some u ∨
       ∃ d, d ≠ c ∧ d ∈ m.clientConnections ∧
         lookupSub m.clientSubscriptions d = some u) := by
    intro u
    rw [i5 u]
    unfold subRefs
    constructor
    · rintro ⟨d, hd, hl⟩
      by_cases hdc : d = c
      · rw [hdc] at hl
        exact Or.inl hl
      · exact Or.inr ⟨d, hdc, hd, hl⟩
    · rintro (hl | ⟨d, hdc, hd, hl⟩)
      · exact ⟨c, hc, hl⟩
      · exact ⟨d, hd, hl⟩
  show routerInv
    (let r := handleUserDataSubscription m c pu
     { r.1 with upstreamCount := applyFrames m.upstreamCount r.2 })
  cases pu with
  | none => exact ⟨i1, i2, i3, i4, i5, i6⟩
  | some ua =>
      unfold handleUserDataSubscription
      simp only []
      have hK2 := i2_update i2 c (lowerStr ua)
      have hi3 : ∀ p ∈ (c, lowerStr ua) :: removeSub m.clientSubscriptions c,
          p.1 ∈ m.clientConnections := by
        intro p hp
        rcases List.mem_cons.mp hp with rfl | hp'
        · exact hc
        · exact i3 p (mem_removeSub.mp hp').1
      cases hL : lookupSub m.clientSubscriptions c with
      | none =>
          simp only []
          have hSR : ∀ u, u ∈ m.subscribedUsers ↔
              ∃ d, d ≠ c ∧ d ∈ m.clientConnections ∧
                lookupSub m.clientSubscriptions d = some u := by
            intro u
            rw [i5c u]
            simp [hL]
          by_cases hin : lowerStr ua ∈ m.subscribedUsers
          · rw [if_pos (by simpa using hin)]
            refine ⟨i1, hK2, hi3, i4, ?_, i6⟩
            intro u
            show u ∈ m.subscribedUsers ↔ ∃ d, d ∈ m.clientConnections ∧
              lookupSub ((c, lowerStr ua) :: removeSub m.clientSubscriptions c) d = some u
            rw [subRefs_update]
            constructor
            · intro huS
              exact Or.inr ((hSR u).mp huS)
            · rintro (⟨-, rfl⟩ | hr)
              · exact hin
              · exact (hSR u).mpr hr
          · rw [if_neg (by simpa using hin)]
            refine ⟨i1, hK2, hi3, List.nodup_cons.mpr ⟨hin, i4⟩, ?_, ?_⟩
            · intro u
              show u ∈ lowerStr ua :: m.subscribedUsers ↔
                ∃ d, d ∈ m.clientConnections ∧
                  lookupSub ((c, lowerStr ua) :: removeSub m.clientSubscriptions c) d = some u
              rw [subRefs_update, List.mem_cons]
              constructor
              · rintro (rfl | huS)
                · exact Or.inl ⟨hc, rfl⟩
                · exact Or.inr ((hSR u).mp huS)
              · rintro (⟨-, rfl⟩ | hr)
                · exact Or.inl rfl
                · exact Or.inr ((hSR u).mpr hr)
            · exact count_sub i6 hin
      | some old =>
          simp only []
          by_cases hou : old ≠ lowerStr ua
          · rw [if_pos hou]
            rcases cleanup_cases m old c with ⟨heq, hstill, holdS⟩ | ⟨heq, hside⟩
            · rw [heq]
              simp only []
              have hnotR : ¬ ∃ d, d ≠ c ∧ d ∈ m.clientConnections ∧
                  lookupSub m.clientSubscriptions d = some old := by
                intro hr
                have := (stillSubscribed_iff (m := m) i2).mpr hr
                rw [hstill] at this
                exact Bool.noConfusion this
              by_cases hin : lowerStr ua ∈ m.subscribedUsers
              · rw [if_pos (by
                  simpa using (List.mem_erase_of_ne (Ne.symm hou)).mpr hin)]
                refine ⟨i1, hK2, hi3, i4.erase old, ?_, ?_⟩
                · intro u
                  show u ∈ m.subscribedUsers.erase old ↔
                    ∃ d, d ∈ m.clientConnections ∧
                      lookupSub ((c, lowerStr ua) :: removeSub m.clientSubscriptions c) d
                        = some u
                  rw [subRefs_update, i4.mem_erase_iff]
                  constructor
                  · rintro ⟨huo, huS⟩
                    rcases (i5c u).mp huS with hl | hr
                    · rw [hL] at hl
                      exact absurd (Option.some.inj hl) (fun he => huo he.symm)
                    · exact Or.inr hr
                  · rintro (⟨-, rfl⟩ | hr)
                    · exact ⟨Ne.symm hou, hin⟩
                    · refine ⟨fun he => hnotR (he ▸ hr), (i5c u).mpr (Or.inr hr)⟩
                · exact count_unsub i4 i6 holdS
              · have hin2 : lowerStr ua ∉ m.subscribedUsers.erase old :=
                  fun hmem => hin (List.mem_of_mem_erase hmem)
                rw [if_neg (by simpa using hin2)]
                refine ⟨i1, hK2, hi3, List.nodup_cons.mpr ⟨hin2, i4.erase old⟩, ?_, ?_⟩
                · intro u
                  show u ∈ lowerStr ua :: m.subscribedUsers.erase old ↔
                    ∃ d, d ∈ m.clientConnections ∧
                      lookupSub ((c, lowerStr ua) :: removeSub m.clientSubscriptions c) d
                        = some u
                  rw [subRefs_update, List.mem_cons, i4.mem_erase_iff]
                  constructor
                  · rintro (rfl | ⟨huo, huS⟩)
                    · exact Or.inl ⟨hc, rfl⟩
                    · rcases (i5c u).mp huS with hl | hr
                      · rw [hL] at hl
                        exact absurd (Option.some.inj hl) (fun he => huo he.symm)
                      · exact Or.inr hr
                  · rintro (⟨-, rfl⟩ | hr)
                    · exact Or.inl rfl
                    · exact Or.inr ⟨fun he => hnotR (he ▸ hr), (i5c u).mpr (Or.inr hr)⟩
                · exact count_unsub_sub i4 i6 holdS hin
            · rw [heq]
              simp only []
              have holdS : old ∈ m.subscribedUsers := (i5c old).mpr (Or.inl hL)
              have hstill : ∃ d, d ≠ c ∧ d ∈ m.clientConnections ∧
                  lookupSub m.clientSubscriptions d = some old := by
                rcases hside with h | h
                · exact (stillSubscribed_iff (m := m) i2).mp h
                · exact absurd holdS h
              by_cases hin : lowerStr ua ∈ m.subscribedUsers
              · rw [if_pos (by simpa using hin)]
                refine ⟨i1, hK2, hi3, i4, ?_, i6⟩
                intro u
                show u ∈ m.subscribedUsers ↔ ∃ d, d ∈ m.clientConnections ∧
                  lookupSub ((c, lowerStr ua) :: removeSub m.clientSubscriptions c) d = some u
                rw [subRefs_update]
                constructor
                · intro huS
                  rcases (i5c u).mp huS with hl | hr
                  · rw [hL] at hl
                    obtain rfl : old = u := Option.some.inj hl
                    exact Or.inr hstill
                  · exact Or.inr hr
                · rintro (⟨-, rfl⟩ | hr)
                  · exact hin
                  · exact (i5c u).mpr (Or.inr hr)
              · rw [if_neg (by simpa using hin)]
                refine ⟨i1, hK2, hi3, List.nodup_cons.mpr ⟨hin, i4⟩, ?_, ?_⟩
                · intro u
                  show u ∈ lowerStr ua :: m.subscribedUsers ↔
                    ∃ d, d ∈ m.clientConnections ∧
                      lookupSub ((c, lowerStr ua) :: removeSub m.clientSubscriptions c) d
                        = some u
                  rw [subRefs_update, List.mem_cons]
                  constructor
                  · rintro (rfl | huS)
                    · exact Or.inl ⟨hc, rfl⟩
                    · rcases (i5c u).mp huS with hl | hr
                      · rw [hL] at hl
                        obtain rfl : old = u := Option.some.inj hl
                        exact Or.inr hstill
                      · exact Or.inr hr
                  · rintro (⟨-, rfl⟩ | hr)
                    · exact Or.inl rfl
                    · exact Or.inr ((i5c u).mpr (Or.inr hr))
                · exact count_sub i6 hin
          · rw [if_neg hou]
            have hou' : old = lowerStr ua := not_not.mp hou
            have huS : lowerStr ua ∈ m.subscribedUsers :=
              (i5c (lowerStr ua)).mpr (Or.inl (hou' ▸ hL))
            rw [if_pos (by simpa using huS)]
            refine ⟨i1, hK2, hi3, i4, ?_, i6⟩
            intro u
            show u ∈ m.subscribedUsers ↔ ∃ d, d ∈ m.clientConnections ∧
              lookupSub ((c, lowerStr ua) :: removeSub m.clientSubscriptions c) d = some u
            rw [subRefs_update]
            constructor
            · intro huS'
              rcases (i5c u).mp huS' with hl | hr
              · rw [hL] at hl
                obtain rfl : old = u := Option.some.inj hl
                exact Or.inl ⟨hc, hou'⟩
              · exact Or.inr hr
            · rintro (⟨-, rfl⟩ | hr)
              · exact huS
              · exact (i5c u).mpr (Or.inr hr)

lemma reachable_routerInv {m : WSManager} (h : Reachable m) : routerInv m := by
  induction h with
  | init =>
      refine ⟨List.nodup_nil, List.nodup_nil, ?_, List.nodup_nil, ?_, ?_⟩
      · intro p hp
        simp at hp
      · intro u
        constructor
        · intro hu
          simp at hu
        · rintro ⟨d, hd, -⟩
          simp at hd
      · intro ch u
        rw [if_neg (fun hcond => by simpa using hcond.2)]
  | connect c h ih => exact inv_connect ih c
  | subscribe c pu h hc ih => exact inv_subscribe ih c pu hc
  | unsubscribe c pu h hc ih => exact inv_unsubscribe ih c pu hc
  | disconnect c h ih => exact inv_disconnect ih c

/-- C7: in every reachable state of the subscription router, a user address is
in `subscribed_users` iff at least one connected client's subscription record
references that user. -/
theorem c7_subscribed_users_iff {m : WSManager} (h : Reachable m) (u : String) :
    u ∈ m.subscribedUsers ↔ subRefs m u :=
  (reachable_routerInv h).2.2.2.2.1 u

/-- A concrete reachable router state: client 5 connects and subscribes to
user `0xAB` (stored lowercased). -/
def demoState : WSManager :=
  applyOp (applyOp {} (.clientConnect 5)) (.subscribeUserData 5 (some "0xAB"))

lemma demoState_reachable : Reachable demoState :=
  Reachable.subscribe 5 (some "0xAB") (Reachable.connect 5 Reachable.init)
    (by decide)

/-- Witness for C7: in the concrete state, `0xab` is in `subscribed_users`
because client 5's record references it. -/
theorem c7_subscribed_users_iff_witness :
    "0xab" ∈ demoState.subscribedUsers :=
  (c7_subscribed_users_iff demoState_reachable "0xab").mpr
    ⟨5, by decide, by decide⟩

/-- C8: subscribing a user who is already in `subscribed_users` sends no
subscribe frame upstream (only cleanup unsubscribes for a previously different
user of the same client, if any); the user stays subscribed; when the
requesting client had no different previous subscription the state's
`subscribed_users` and the sent frames are exactly unchanged/empty; and in any
reachable state each (channel, user) pair has at most one active upstream
subscription. -/
theorem c8_duplicate_subscribe_noop {m : WSManager} (c : Nat) (ua : String)
    (h : lowerStr ua ∈ m.subscribedUsers) :
    (∀ f ∈ (handleUserDataSubscription m c (some ua)).2, f.method ≠ "subscribe") ∧
    lowerStr ua ∈ (handleUserDataSubscription m c (some ua)).1.subscribedUsers ∧
    ((lookupSub m.clientSubscriptions c = none ∨
      lookupSub m.clientSubscriptions c = some (lowerStr ua)) →
      (handleUserDataSubscription m c (some ua)).1.subscribedUsers =
        m.subscribedUsers ∧
      (handleUserDataSubscription m c (some ua)).2 = []) ∧
    (Reachable m → ∀ ch u, m.upstreamCount ch u ≤ 1) := by
  refine ⟨?_, ?_, ?_, ?_⟩
  · unfold handleUserDataSubscription
    simp only []
    cases hL : lookupSub m.clientSubscriptions c with
    | none =>
        simp only []
        rw [if_pos (by simpa using h)]
        intro f hf
        simp at hf
    | some old =>
        simp only []
        by_cases hou : old ≠ lowerStr ua
        · rw [if_pos hou]
          rcases cleanup_cases m old c with ⟨heq, -, -⟩ | ⟨heq, -⟩ <;> rw [heq] <;>
            simp only []
          · rw [if_pos (by
              simpa using (List.mem_erase_of_ne (fun he => hou he.symm)).mpr h)]
            intro f hf
            rw [unsubscribeUserFrames] at hf
            rcases List.mem_cons.mp hf with rfl | hf
            · simp
            · rcases List.mem_singleton.mp hf with rfl
              simp
          · rw [if_pos (by simpa using h)]
            intro f hf
            simp at hf
        · rw [if_neg hou]
          rw [if_pos (by simpa using h)]
          intro f hf
          simp at hf
  · unfold handleUserDataSubscription
    simp only []
    cases hL : lookupSub m.clientSubscriptions c with
    | none =>
        simp only []
        rw [if_pos (by simpa using h)]
        exact h
    | some old =>
        simp only []
        by_cases hou : old ≠ lowerStr ua
        · rw [if_pos hou]
          rcases cleanup_cases m old c with ⟨heq, -, -⟩ | ⟨heq, -⟩ <;> rw [heq] <;>
            simp only []
          · rw [if_pos (by
              simpa using (List.mem_erase_of_ne (fun he => hou he.symm)).mpr h)]
            exact (List.mem_erase_of_ne (fun he => hou he.symm)).mpr h
          · rw [if_pos (by simpa using h)]
            exact h
        · rw [if_neg hou]
          rw [if_pos (by simpa using h)]
          exact h
  · intro hside
    unfold handleUserDataSubscription
    simp only []
    cases hL : lookupSub m.clientSubscriptions c with
    | none =>
        simp only []
        rw [if_pos (by simpa using h)]
        exact ⟨rfl, rfl⟩
    | some old =>
        simp only []
        have hou : ¬ (old ≠ lowerStr ua) := by
          rcases hside with hn | hs
          · rw [hL] at hn
            exact Option.noConfusion hn
          · rw [hL] at hs
            exact fun hne => hne (Option.some.inj hs)
        rw [if_neg hou]
        rw [if_pos (by simpa using h)]
        exact ⟨rfl, rfl⟩
  · intro hre ch u
    rw [(reachable_routerInv hre).2.2.2.2.2 ch u]
    by_cases hcu : (ch = "userEvents" ∨ ch = "webData2") ∧ u ∈ m.subscribedUsers
    · rw [if_pos hcu]
    · rw [if_neg hcu]
      norm_num

/-- Witness for C8: re-subscribing the already subscribed user `0xAB` (by a
fresh client 6) sends no frame and leaves `subscribed_users` unchanged. -/
theorem c8_duplicate_subscribe_noop_witness :
    (handleUserDataSubscription demoState 6 (some "0xAB")).2 = [] ∧
    (handleUserDataSubscription demoState 6 (some "0xAB")).1.subscribedUsers =
      demoState.subscribedUsers := by
  have h := c8_duplicate_subscribe_noop (m := demoState) 6 "0xAB" (by decide)
  exact ⟨(h.2.2.1 (Or.inl (by decide))).2, (h.2.2.1 (Or.inl (by decide))).1⟩

/-- A concrete multiplexer state with one user subscription active, about to
reconnect. -/
def reconnectState : WSManager :=
  { clientConnections := [5], clientSubscriptions := [(5, "0xabc")],
    subscribedUsers := ["0xabc"],
    upstreamCount := fun ch u =>
      if (ch = "userEvents" ∨ ch = "webData2") ∧ u = "0xabc" then 1 else 0 }

/-- Counterexample to C4 as stated: with `0xabc` in `subscribed_users`, the
frames sent by a reconnect contain no `userEvents` (and no `webData2`)
subscribe frame for that user — `connect_to_hyperliquid` only re-subscribes
`allMids`. -/
theorem c4_reconnect_counterexample :
    "0xabc" ∈ reconnectState.subscribedUsers ∧
    ¬ ∃ f ∈ (reconnect reconnectState).2,
        f.subType = "userEvents" ∧ f.user = some "0xabc" := by
  constructor
  · decide
  · rintro ⟨f, hf, hty, -⟩
    rw [List.mem_singleton.mp hf] at hty
    exact absurd hty (by decide)

/-- C4 amended: after every reconnect the multiplexer re-issues only the
`allMids` subscription and changes no state; no per-user subscribe frame is
re-issued for the users in `subscribed_users`. -/
theorem c4_reconnect_amended (m : WSManager) :
    (reconnect m).2 = [⟨"subscribe", "allMids", none⟩] ∧ (reconnect m).1 = m :=
  ⟨rfl, rfl⟩

/-! ### Batch order-status queries (`hyperliquid_api_client.py`) -/

/-- One entry of the `open_orders` response; `order.get('order', {}).get('oid')`
may be absent.  `payload` stands for the remaining fields of the entry. -/
structure OpenOrderEntry where
  oid : Option Int
  payload : Nat
  deriving DecidableEq, Repr

/-- One dict assignment `open_orders_map[oid] = order` of the loop in
`batch_get_order_statuses` (hyperliquid_api_client.py lines 322-326): entries
without an oid are skipped, later entries overwrite earlier ones. -/
def insertOid (acc : Int → Option OpenOrderEntry) (o : OpenOrderEntry) :
    Int → Option OpenOrderEntry :=
  match o.oid with
  | none => acc
  | some k => fun i => if i = k then some o else acc i

/-- The reference lookup the claim describes: the entry of the open-orders
result assigned to a requested id — the last response entry carrying that
oid, or `none` when the id is absent. -/
def lookupLast (orders : List OpenOrderEntry) (i : Int) : Option OpenOrderEntry :=
  match orders with
  | [] => none
  | o :: rest =>
      match lookupLast rest i with
      | some r => some r
      | none => if o.oid = some i then some o else none

/-- `batch_get_order_statuses` (hyperliquid_api_client.py lines 309-334):
an empty id list returns `{}` without any request; otherwise exactly one
`get_open_orders` call is made, whose outcome is passed as
`fetch = (success, open_orders)`; on failure every id maps to `None`; on
success the response is partitioned locally through the oid dict.  The first
component counts the open-orders requests issued. -/
def batchGetOrderStatuses (fetch : Bool × List OpenOrderEntry)
    (orderIds : List Int) : Nat × List (Int × Option OpenOrderEntry) :=
  if orderIds = [] then (0, [])
  else if fetch.1 = false then (1, orderIds.map fun i => (i, none))
  else
    let mp := fetch.2.foldl insertOid (fun _ => none)
    (1, orderIds.map fun i => (i, mp i))

lemma foldl_insertOid (orders : List OpenOrderEntry)
    (acc : Int → Option OpenOrderEntry) (i : Int) :
    (orders.foldl insertOid acc) i =
      match lookupLast orders i with
      | some r => some r
      | none => acc i := by
  induction orders generalizing acc with
  | nil => rfl
  | cons o rest ih =>
      rw [List.foldl_cons, ih]
      cases h : lookupLast rest i with
      | some r => simp [lookupLast, h]
      | none =>
          simp only [lookupLast, h]
          cases ho : o.oid with
          | none => simp [insertOid, ho]
          | some k =>
              by_cases hk : k = i
              · simp [insertOid, ho, hk]
              · simp only [insertOid, ho]
                rw [if_neg (fun he : i = k => hk he.symm),
                    if_neg (fun he : (some k : Option Int) = some i =>
                      hk (Option.some.inj he))]

/-- C9: `batch_get_order_statuses` issues no request and returns an empty map
for an empty id list, and exactly one open-orders request otherwise; on a
failed request every requested id maps to `None`; on success each requested id
maps to its entry of the single open-orders result (the last response entry
with that oid), or `None` when absent. -/
theorem c9_batch_get_order_statuses_single_request
    (fetch : Bool × List OpenOrderEntry) (ids : List Int) :
    (ids = [] → batchGetOrderStatuses fetch ids = (0, [])) ∧
    (ids ≠ [] → (batchGetOrderStatuses fetch ids).1 = 1) ∧
    (fetch.1 = false →
      (batchGetOrderStatuses fetch ids).2 = ids.map fun i => (i, none)) ∧
    (fetch.1 = true →
      (batchGetOrderStatuses fetch ids).2 =
        ids.map fun i => (i, lookupLast fetch.2 i)) := by
  refine ⟨?_, ?_, ?_, ?_⟩
  · intro h
    rw [batchGetOrderStatuses, if_pos h]
  · intro h
    rw [batchGetOrderStatuses, if_neg h]
    by_cases hf : fetch.1 = false
    · rw [if_pos hf]
    · rw [if_neg hf]
  · intro hf
    by_cases h : ids = []
    · rw [batchGetOrderStatuses, if_pos h, h]
      rfl
    · rw [batchGetOrderStatuses, if_neg h, if_pos hf]
  · intro hf
    by_cases h : ids = []
    · rw [batchGetOrderStatuses, if_pos h, h]
      rfl
    · rw [batchGetOrderStatuses, if_neg h, if_neg (by rw [hf]; simp)]
      simp only []
      refine List.map_congr_left fun i _ => ?_
      rw [Prod.mk.injEq]
      refine ⟨rfl, ?_⟩
      rw [foldl_insertOid]
      cases hl : lookupLast fetch.2 i <;> rfl

/-- Witness for C9: a concrete batch — ids `[7, 9]` against a response holding
two entries with oid 7 (the later one wins) — issues one request and maps 7 to
that entry and 9 to `None`; the empty id list issues no request. -/
theorem c9_batch_get_order_statuses_single_request_witness :
    (batchGetOrderStatuses (true, [⟨some 7, 0⟩, ⟨none, 1⟩, ⟨some 7, 2⟩]) [7, 9]).1 = 1 ∧
    (batchGetOrderStatuses (true, [⟨some 7, 0⟩, ⟨none, 1⟩, ⟨some 7, 2⟩]) [7, 9]).2 =
      [(7, some ⟨some 7, 2⟩), (9, none)] ∧
    batchGetOrderStatuses (true, [⟨some 7, 0⟩, ⟨none, 1⟩, ⟨some 7, 2⟩]) [] = (0, []) := by
  have h := c9_batch_get_order_statuses_single_request
    (true, [⟨some 7, 0⟩, ⟨none, 1⟩, ⟨some 7, 2⟩]) [7, 9]
  have h0 := c9_batch_get_order_statuses_single_request
    (true, [⟨some 7, 0⟩, ⟨none, 1⟩, ⟨some 7, 2⟩]) []
  refine ⟨h.2.1 (by decide), ?_, h0.1 rfl⟩
  rw [h.2.2.2 rfl]
  decide

/-! ### Polling fallback loop (`industry_grade_order_tracker.py`) -/

/-- `TrackingStrategy` enum (industry_grade_order_tracker.py lines 18-22). -/
inductive TrackingStrategy where
  | websocketOnly
  | pollingOnly
  | hybrid
  deriving DecidableEq, Repr

/-- `TrackingConfig` (industry_grade_order_tracker.py lines 24-32); durations
in seconds.  `pollingIntervalSeconds` only paces the loop and is unused by the
per-cycle functions below. -/
structure TrackingConfig where
  strategy : TrackingStrategy := .hybrid
  trackingDurationSeconds : ℚ := 3600
  pollingIntervalSeconds : ℚ := 10
  websocketTimeoutSeconds : ℚ := 30
  deriving DecidableEq, Repr

/-- The `OrderTracker` fields read by the polling loop (lines 34-54): the
shared `OrderContext`, creation time, last push-update time and the active
flag. -/
structure OrderTrackerState where
  orderId : String
  ctx : OrderContext
  createdAt : ℚ
  lastWebsocketUpdate : Option ℚ := none
  isActive : Bool := true
  deriving DecidableEq, Repr

/-- `OrderTracker.should_continue_tracking` (lines 56-74). -/
def shouldContinueTracking (cfg : TrackingConfig) (now : ℚ)
    (t : OrderTrackerState) : Bool :=
  if !t.isActive then false
  else if now - t.createdAt > cfg.trackingDurationSeconds then false
  else if isTerminalState t.ctx.state then false
  else true

/-- `OrderTracker.should_use_polling_fallback` (lines 76-91). -/
def shouldUsePollingFallback (cfg : TrackingConfig) (now : ℚ)
    (t : OrderTrackerState) : Bool :=
  match cfg.strategy with
  | .pollingOnly => true
  | .websocketOnly => false
  | .hybrid =>
      match t.lastWebsocketUpdate with
      | some ts => now - ts > cfg.websocketTimeoutSeconds
      | none => now - t.createdAt > cfg.websocketTimeoutSeconds

/-- A user fill returned by `get_user_fills`. -/
structure FillRecord where
  oid : Int
  sz : ℚ
  px : ℚ
  deriving DecidableEq, Repr

/-- The event emitted by `_handle_missing_order` (lines 517-561): when the
fills query succeeds, fills matching the order's exchange id yield a synthetic
`COMPLETE_FILL`, none yields a `CANCEL` (reason `Not found in open orders`);
a failed fills query emits nothing. -/
def handleMissingOrder (fillsFetch : Bool × List FillRecord)
    (exchangeId : Int) : List OrderEvent :=
  if fillsFetch.1 then
    if (fillsFetch.2.filter (fun f => f.oid = exchangeId)).isEmpty then [.cancel]
    else [.completeFill]
  else []

/-- The result-processing loop of `_poll_user_orders` (lines 497-510): each
batch row is resolved through `order_mapping` (a dict keyed by exchange id, so
the last tracker with that id wins); a missing order goes through
`_handle_missing_order`, a still-open order emits `CONFIRM_OPEN` when the
local state is still PENDING or SUBMITTED (`_handle_open_order_update`,
lines 563-582). -/
def processPollResults (fillsFetch : Bool × List FillRecord)
    (entries : List OrderTrackerState) :
    List (Int × Option OpenOrderEntry) → List (String × OrderEvent)
  | [] => []
  | r :: rest =>
      let tail := processPollResults fillsFetch entries rest
      match (entries.filter
          (fun t => t.ctx.exchangeOrderId = some r.1)).getLast? with
      | none => tail
      | some t =>
          match r.2 with
          | none =>
              (handleMissingOrder fillsFetch r.1).map (fun e => (t.orderId, e)) ++ tail
          | some _ =>
              if t.ctx.state = .pending ∨ t.ctx.state = .submitted then
                (t.orderId, .confirmOpen) :: tail
              else tail

/-- `_poll_user_orders` (lines 478-515): collect the exchange ids of the
trackers that have one (`if tracker.order_context.exchange_order_id:`), return
without querying when the list is empty, issue one batch query and process the
rows.  Returns (ids sent to the batch query, events triggered). -/
def pollUserOrders (openFetch : Bool × List OpenOrderEntry)
    (fillsFetch : Bool × List FillRecord) (entries : List OrderTrackerState) :
    List Int × List (String × OrderEvent) :=
  let ids := entries.filterMap (fun t => t.ctx.exchangeOrderId)
  if ids = [] then ([], [])
  else (ids, processPollResults fillsFetch entries
    (batchGetOrderStatuses openFetch ids).2)

/-- One cycle of `_polling_loop` (lines 439-458) for one user's cohort: the
orders satisfying both the continue predicate and the polling-fallback
predicate are selected and polled (`_poll_order_statuses` groups them by user
and applies `_poll_user_orders` per group; one group is modelled). -/
def pollingCycle (cfg : TrackingConfig) (now : ℚ)
    (openFetch : Bool × List OpenOrderEntry)
    (fillsFetch : Bool × List FillRecord) (entries : List OrderTrackerState) :
    List Int × List (String × OrderEvent) :=
  pollUserOrders openFetch fillsFetch
    (entries.filter (fun t => shouldContinueTracking cfg now t &&
                              shouldUsePollingFallback cfg now t))

lemma processPollResults_events {fillsFetch : Bool × List FillRecord}
    {entries : List OrderTrackerState}
    (rows : List (Int × Option OpenOrderEntry)) :
    ∀ p ∈ processPollResults fillsFetch entries rows,
      ∃ t ∈ entries, t.orderId = p.1 ∧ t.ctx.exchangeOrderId.isSome := by
  induction rows with
  | nil => intro p hp; simp [processPollResults] at hp
  | cons r rest ih =>
      intro p hp
      rw [processPollResults] at hp
      cases hfind : (entries.filter
          (fun t => t.ctx.exchangeOrderId = some r.1)).getLast? with
      | none =>
          rw [hfind] at hp
          exact ih p hp
      | some t =>
          rw [hfind] at hp
          have htmem : t ∈ entries.filter (fun t => t.ctx.exchangeOrderId = some r.1) := by
            obtain ⟨hne, heq⟩ := List.mem_getLast?_eq_getLast (Option.mem_def.mpr hfind)
            rw [heq]
            exact List.getLast_mem hne
          have htent : t ∈ entries := (List.mem_filter.mp htmem).1
          have htid : t.ctx.exchangeOrderId = some r.1 := by
            have := (List.mem_filter.mp htmem).2
            simpa using this
          cases hr : r.2 with
          | none =>
              rw [hr] at hp
              simp only [] at hp
              rcases List.mem_append.mp hp with hp1 | hp2
              · obtain ⟨e, -, he⟩ := List.mem_map.mp hp1
                exact ⟨t, htent, by rw [← he], by rw [htid]; rfl⟩
              · exact ih p hp2
          | some entry =>
              rw [hr] at hp
              simp only [] at hp
              by_cases hst : t.ctx.state = .pending ∨ t.ctx.state = .submitted
              · rw [if_pos hst] at hp
                rcases List.mem_cons.mp hp with rfl | hp2
                · exact ⟨t, htent, rfl, by rw [htid]; rfl⟩
                · exact ih p hp2
              · rw [if_neg hst] at hp
                exact ih p hp

/-- C10: in a polling cycle, every exchange id sent in the batch query belongs
to a selected tracker that has one, and every triggered event belongs to a
tracker whose `exchange_order_id` is set — so an order whose exchange id is
unset is excluded from the query and receives no poll-driven event even when
it satisfies the continue and polling-fallback predicates. -/
theorem c10_unset_exchange_id_excluded (cfg : TrackingConfig) (now : ℚ)
    (openFetch : Bool × List OpenOrderEntry)
    (fillsFetch : Bool × List FillRecord) (entries : List OrderTrackerState) :
    (∀ i ∈ (pollingCycle cfg now openFetch fillsFetch entries).1,
      ∃ t ∈ entries, t.ctx.exchangeOrderId = some i ∧
        shouldContinueTracking cfg now t = true ∧
        shouldUsePollingFallback cfg now t = true) ∧
    (∀ p ∈ (pollingCycle cfg now openFetch fillsFetch entries).2,
      ∃ t ∈ entries, t.orderId = p.1 ∧ t.ctx.exchangeOrderId.isSome) := by
  constructor
  · intro i hi
    unfold pollingCycle pollUserOrders at hi
    simp only [] at hi
    by_cases hids : (entries.filter (fun t => shouldContinueTracking cfg now t &&
        shouldUsePollingFallback cfg now t)).filterMap
        (fun t => t.ctx.exchangeOrderId) = []
    · rw [if_pos hids] at hi
      simp at hi
    · rw [if_neg hids] at hi
      obtain ⟨t, htf, hid⟩ := List.mem_filterMap.mp hi
      obtain ⟨htent, hpred⟩ := List.mem_filter.mp htf
      have hpred' := Bool.and_eq_true _ _ |>.mp hpred
      exact ⟨t, htent, hid, hpred'.1, hpred'.2⟩
  · intro p hp
    unfold pollingCycle pollUserOrders at hp
    simp only [] at hp
    by_cases hids : (entries.filter (fun t => shouldContinueTracking cfg now t &&
        shouldUsePollingFallback cfg now t)).filterMap
        (fun t => t.ctx.exchangeOrderId) = []
    · rw [if_pos hids] at hp
      simp at hp
    · rw [if_neg hids] at hp
      obtain ⟨t, htf, htid, hsome⟩ := processPollResults_events _ p hp
      exact ⟨t, (List.mem_filter.mp htf).1, htid, hsome⟩

/-- Concrete trackers for the C10 witness: `o0` has no exchange id yet but
satisfies both polling predicates; `o1` has exchange id 7 and is submitted. -/
def demoTrackers : List OrderTrackerState :=
  [{ orderId := "o0", ctx := { size := 1, state := .submitted }, createdAt := 0 },
   { orderId := "o1",
     ctx := { size := 1, state := .submitted, exchangeOrderId := some 7 },
     createdAt := 0 }]

/-- Witness for C10: at time 100 with an empty open-orders response and no
fills, the cycle queries only id 7 and cancels only `o1`; `o0` satisfies the
fallback predicate yet is untouched, as the theorem's conclusions certify at
this input. -/
theorem c10_unset_exchange_id_excluded_witness :
    (pollingCycle {} 100 (true, []) (true, []) demoTrackers).1 = [7] ∧
    (pollingCycle {} 100 (true, []) (true, []) demoTrackers).2 = [("o1", .cancel)] ∧
    shouldUsePollingFallback {} 100
      { orderId := "o0", ctx := { size := 1, state := .submitted }, createdAt := 0 } = true ∧
    (∃ t ∈ demoTrackers, t.ctx.exchangeOrderId = some 7 ∧
      shouldContinueTracking {} 100 t = true ∧
      shouldUsePollingFallback {} 100 t = true) ∧
    (∃ t ∈ demoTrackers, t.orderId = "o1" ∧ t.ctx.exchangeOrderId.isSome) := by
  have hpred : List.filter (fun t => shouldContinueTracking {} 100 t &&
      shouldUsePollingFallback {} 100 t) demoTrackers = demoTrackers := by
    rw [List.filter_eq_self]
    intro t ht
    rcases List.mem_cons.mp ht with rfl | ht
    · norm_num [shouldContinueTracking, shouldUsePollingFallback, isTerminalState]
      all_goals decide
    · rcases List.mem_singleton.mp ht with rfl
      norm_num [shouldContinueTracking, shouldUsePollingFallback, isTerminalState]
      all_goals decide
  have hcyc : pollingCycle {} 100 (true, []) (true, []) demoTrackers =
      ([7], [("o1", .cancel)]) := by
    rw [pollingCycle, hpred]
    decide
  refine ⟨by rw [hcyc], by rw [hcyc], ?_, ?_, ?_⟩
  · norm_num [shouldUsePollingFallback]
  · exact (c10_unset_exchange_id_excluded {} 100 (true, []) (true, [])
      demoTrackers).1 7 (by rw [hcyc]; exact List.mem_singleton.mpr rfl)
  · exact (c10_unset_exchange_id_excluded {} 100 (true, []) (true, [])
      demoTrackers).2 ("o1", .cancel) (by rw [hcyc]; exact List.mem_singleton.mpr rfl)

/-! ### Telegram notifications (`app/websocket.py` lines 440-912,
`app/models/database.py`) -/

/-- The `NotificationSettings` fields the handlers consume
(database.py lines 44-51): category toggles and the minimum USD amount. -/
structure NotificationSettings where
  fillNotifications : Bool := true
  pnlNotifications : Bool := true
  minNotificationAmount : ℚ := 0
  deriving DecidableEq, Repr

/-- A fill of a `userEvents` frame as read by
`handle_user_events_for_telegram` (websocket.py lines 479-486). -/
structure TgFill where
  coin : String
  side : String
  px : ℚ
  sz : ℚ
  fee : ℚ
  deriving DecidableEq, Repr

/-- The per-coin entry of `user_position_tracker` (websocket.py lines
517-523).  The stored raw fill list is unused by any claim and omitted. -/
structure CoinPosition where
  netSize : ℚ := 0
  avgEntryPrice : ℚ := 0
  totalCost : ℚ := 0
  deriving DecidableEq, Repr

/-- A chat message sent through the telegram service:
`send_position_fill_alert` for fills, `send_pnl_alert` with
`positionClosed` data for closes, `send_pnl_alert` with position data for a
threshold crossing (identified here by its dedup threshold). -/
inductive TgMessage where
  | fillAlert (coin side : String) (px sz : ℚ)
  | pnlAlert (coin : String) (realizedPnl : ℚ)
  | thresholdAlert (user coin : String) (threshold : Nat)
  deriving DecidableEq, Repr

/-- `send_position_close_notification` (websocket.py lines 605-637): the
close alert goes out only when `abs(realized_pnl)` clears
`min_notification_amount`. -/
def sendPositionCloseNotification (settings : NotificationSettings)
    (coin : String) (realizedPnl : ℚ) : List TgMessage :=
  if |realizedPnl| ≥ settings.minNotificationAmount then
    [.pnlAlert coin realizedPnl]
  else []

/-- Dict lookup on a coin-keyed association list. -/
def lookupCoin {α : Type} : List (String × α) → String → Option α
  | [], _ => none
  | p :: ps, c => if p.1 = c then some p.2 else lookupCoin ps c

/-- Dict assignment on a coin-keyed association list. -/
def updateCoin {α : Type} (l : List (String × α)) (c : String) (v : α) :
    List (String × α) :=
  (c, v) :: l.filter (fun p => p.1 != c)

/-- The per-fill position bookkeeping and messages of the fills loop
(websocket.py lines 525-600): buys accumulate cost and size; sells against a
long position close `min(sz, prev_size)`, send the (min-gated) close
notification, rescale or reset the position, and flip short with any
remainder; other sells open or grow a short.  Every fill then produces an
ungated fill alert (line 584: "no threshold - every fill is important"). -/
def applyTgFill (settings : NotificationSettings) (pos : CoinPosition)
    (f : TgFill) : CoinPosition × List TgMessage :=
  let fillMsg : TgMessage := .fillAlert f.coin f.side f.px f.sz
  if f.side = "B" then
    let pos1 := { pos with totalCost := pos.totalCost + f.px * f.sz,
                           netSize := pos.netSize + f.sz }
    let pos2 := if pos1.netSize > 0 then
        { pos1 with avgEntryPrice := pos1.totalCost / pos1.netSize }
      else pos1
    (pos2, [fillMsg])
  else if f.side = "S" then
    if pos.netSize > 0 then
      let closeSize := min f.sz pos.netSize
      let realized := closeSize * (f.px - pos.avgEntryPrice)
      let closeMsgs := sendPositionCloseNotification settings f.coin realized
      let pos1 := { pos with netSize := pos.netSize - closeSize }
      let pos2 := if pos1.netSize ≤ 0 then
          { pos1 with totalCost := 0, avgEntryPrice := 0 }
        else { pos1 with totalCost := pos.totalCost * (pos1.netSize / pos.netSize) }
      let rem := f.sz - closeSize
      let pos3 := if rem > 0 then
          { pos2 with netSize := -rem, totalCost := rem * f.px, avgEntryPrice := f.px }
        else pos2
      (pos3, closeMsgs ++ [fillMsg])
    else
      let pos1 := { pos with totalCost := pos.totalCost + f.px * f.sz,
                             netSize := pos.netSize - f.sz }
      let pos2 := if pos1.netSize < 0 then
          { pos1 with avgEntryPrice := pos1.totalCost / |pos1.netSize| }
        else pos1
      (pos2, [fillMsg])
  else
    (pos, [fillMsg])

/-- The fills loop of `handle_user_events_for_telegram` (lines 479-600). -/
def processTgFills (settings : NotificationSettings) :
    List (String × CoinPosition) → List TgFill →
    List (String × CoinPosition) × List TgMessage
  | pos, [] => (pos, [])
  | pos, f :: fs =>
      let p0 := (lookupCoin pos f.coin).getD {}
      let step := applyTgFill settings p0 f
      let rest := processTgFills settings (updateCoin pos f.coin step.1) fs
      (rest.1, step.2 ++ rest.2)

/-- `handle_user_events_for_telegram` (websocket.py lines 440-603) on one
`fills` frame: nothing is sent without a linked chat id (lines 450-453) or
with `fill_notifications` disabled (lines 461-463); otherwise the fills loop
runs. -/
def handleUserEventsForTelegram (hasChatId : Bool)
    (settings : NotificationSettings) (positions : List (String × CoinPosition))
    (fills : List TgFill) : List (String × CoinPosition) × List TgMessage :=
  if !hasChatId then (positions, [])
  else if !settings.fillNotifications then (positions, [])
  else processTgFills settings positions fills

/-- One position of a `webData2` account-snapshot frame as read by
`handle_position_updates_for_telegram` (websocket.py lines 766-776). -/
structure SnapshotPosition where
  coin : String
  szi : ℚ
  unrealizedPnl : ℚ
  entryPx : ℚ
  deriving DecidableEq, Repr

/-- The per-coin entry of `user_positions` (websocket.py lines 781-786):
`size` is `abs(float(szi))`. -/
structure PrevPosition where
  size : ℚ
  unrealizedPnl : ℚ
  entryPx : ℚ
  deriving DecidableEq, Repr

/-- `significant_thresholds` (websocket.py line 794). -/
def pnlThresholds : List Nat := [10, 25, 50]

/-- The dedup key `f"{user_address}_{coin}_{threshold}"` (line 800). -/
def tgKey (user coin : String) (t : Nat) : String :=
  user ++ "_" ++ coin ++ "_" ++ toString t

/-- Python `str.startswith` on the dedup keys. -/
def strHasPrefix (pre s : String) : Bool :=
  pre.data.isPrefixOf s.data

/-- The threshold loop (websocket.py lines 797-826): thresholds are scanned
in ascending order; at the first crossed threshold whose dedup key is not in
`sent_notifications` the loop breaks, emitting the alert and recording the
key only when `abs(unrealized_pnl)` clears the minimum amount.  A crossed
threshold whose key was already sent lets the loop continue to the next
threshold.  Returns the new key set and the emitted threshold, if any. -/
def pnlThresholdScan (sent : List String) (user coin : String)
    (absPct absPnl minAmt : ℚ) : List Nat → List String × Option Nat
  | [] => (sent, none)
  | t :: ts =>
      if absPct ≥ (t : ℚ) then
        if tgKey user coin t ∈ sent then
          pnlThresholdScan sent user coin absPct absPnl minAmt ts
        else if absPnl ≥ minAmt then (tgKey user coin t :: sent, some t)
        else (sent, none)
      else pnlThresholdScan sent user coin absPct absPnl minAmt ts

/-- `current_positions` built from the snapshot (lines 781-786); later
entries for the same coin overwrite earlier ones. -/
def buildCurrent (snapshot : List SnapshotPosition) :
    List (String × PrevPosition) :=
  snapshot.foldl
    (fun acc p => updateCoin acc p.coin ⟨|p.szi|, p.unrealizedPnl, p.entryPx⟩) []

/-- The threshold half of the snapshot loop (lines 788-826): only positions
with `position_size > 0 and entry_px > 0` are scanned;
`pnl_percentage = unrealized_pnl / (size * entry) * 100`. -/
def thresholdPass (settings : NotificationSettings) (user : String) :
    List String × List TgMessage → List SnapshotPosition →
    List String × List TgMessage
  | sm, [] => sm
  | sm, p :: ps =>
      if |p.szi| > 0 ∧ p.entryPx > 0 then
        let pct := p.unrealizedPnl / (|p.szi| * p.entryPx) * 100
        let scan := pnlThresholdScan sm.1 user p.coin |pct| |p.unrealizedPnl|
          settings.minNotificationAmount pnlThresholds
        match scan.2 with
        | some t =>
            thresholdPass settings user
              (scan.1, sm.2 ++ [.thresholdAlert user p.coin t]) ps
        | none => thresholdPass settings user (scan.1, sm.2) ps
      else thresholdPass settings user sm ps

/-- The close data of lines 844-872 and 700-728: the latest close fill from
`get_recent_close_fills` when available (px, sz, closedPnl), else the
fallback (prior entry price, prior size, prior unrealized pnl). -/
def getCloseData (closeFills : String → Option (ℚ × ℚ × ℚ)) (coin : String)
    (p : PrevPosition) : ℚ × ℚ × ℚ :=
  match closeFills coin with
  | some d => d
  | none => (p.entryPx, p.size, p.unrealizedPnl)

/-- The per-coin close detection pass (websocket.py lines 828-906): a coin
with prior size > 0 and current size 0 emits a (min-gated) close alert and
clears every dedup key with the `f"{user}_{coin}_"` prefix. -/
def closePass (settings : NotificationSettings)
    (closeFills : String → Option (ℚ × ℚ × ℚ)) (user : String)
    (current : List (String × PrevPosition)) :
    List String × List TgMessage → List (String × PrevPosition) →
    List String × List TgMessage
  | sm, [] => sm
  | sm, cp :: rest =>
      let currentSize := ((lookupCoin current cp.1).map PrevPosition.size).getD 0
      if cp.2.size > 0 ∧ currentSize = 0 then
        let d := getCloseData closeFills cp.1 cp.2
        let msgs := if |d.2.2| ≥ settings.minNotificationAmount then
            sm.2 ++ [.pnlAlert cp.1 d.2.2]
          else sm.2
        closePass settings closeFills user current
          (sm.1.filter (fun k => !strHasPrefix (user ++ "_" ++ cp.1 ++ "_") k),
           msgs) rest
      else closePass settings closeFills user current sm rest

/-- The all-positions-closed branch (websocket.py lines 690-758): a snapshot
with no positions while prior positions exist emits a (min-gated) close alert
per previously open coin and clears the stored positions — but NOT the dedup
keys. -/
def allClosedPass (settings : NotificationSettings)
    (closeFills : String → Option (ℚ × ℚ × ℚ)) :
    List (String × PrevPosition) → List TgMessage
  | [] => []
  | cp :: rest =>
      if cp.2.size > 0 then
        let d := getCloseData closeFills cp.1 cp.2
        (if |d.2.2| ≥ settings.minNotificationAmount then [.pnlAlert cp.1 d.2.2]
         else []) ++ allClosedPass settings closeFills rest
      else allClosedPass settings closeFills rest

/-- `handle_position_updates_for_telegram` (websocket.py lines 639-912) for
one user's snapshot: returns (dedup keys, stored positions, messages). -/
def handlePositionUpdatesForTelegram (hasChatId : Bool)
    (settings : NotificationSettings)
    (closeFills : String → Option (ℚ × ℚ × ℚ)) (user : String)
    (sent : List String) (prev : List (String × PrevPosition))
    (snapshot : List SnapshotPosition) :
    List String × List (String × PrevPosition) × List TgMessage :=
  if !hasChatId then (sent, prev, [])
  else if !settings.pnlNotifications then (sent, prev, [])
  else if snapshot = [] ∧ prev ≠ [] then
    (sent, [], allClosedPass settings closeFills prev)
  else if snapshot = [] then (sent, prev, [])
  else
    let current := buildCurrent snapshot
    let pass1 := thresholdPass settings user (sent, []) snapshot
    let pass2 := closePass settings closeFills user current pass1 prev
    (pass2.1, current, pass2.2)

/-- Recognizer for fill alerts among the sent messages. -/
def isFillAlert : TgMessage → Bool
  | .fillAlert _ _ _ _ => true
  | _ => false

lemma sendClose_filter_fill (settings : NotificationSettings) (coin : String)
    (r : ℚ) :
    (sendPositionCloseNotification settings coin r).filter isFillAlert = [] := by
  unfold sendPositionCloseNotification
  by_cases h : |r| ≥ settings.minNotificationAmount
  · rw [if_pos h]
    rfl
  · rw [if_neg h]
    rfl

lemma sendClose_mem_bound {settings : NotificationSettings} {coin c : String}
    {r x : ℚ}
    (h : TgMessage.pnlAlert c x ∈ sendPositionCloseNotification settings coin r) :
    |x| ≥ settings.minNotificationAmount := by
  unfold sendPositionCloseNotification at h
  by_cases hg : |r| ≥ settings.minNotificationAmount
  · rw [if_pos hg] at h
    rcases List.mem_singleton.mp h with he
    obtain ⟨-, rfl⟩ : c = coin ∧ x = r := by
      injection he with h1 h2
      exact ⟨h1, h2⟩
    exact hg
  · rw [if_neg hg] at h
    simp at h

lemma applyTgFill_filter_fill (settings : NotificationSettings)
    (pos : CoinPosition) (f : TgFill) :
    (applyTgFill settings pos f).2.filter isFillAlert =
      [.fillAlert f.coin f.side f.px f.sz] := by
  unfold applyTgFill
  by_cases hb : f.side = "B"
  · rw [if_pos hb]
    rfl
  · rw [if_neg hb]
    by_cases hs : f.side = "S"
    · rw [if_pos hs]
      by_cases hl : pos.netSize > 0
      · rw [if_pos hl]
        simp only []
        rw [List.filter_append, sendClose_filter_fill]
        rfl
      · rw [if_neg hl]
        rfl
    · rw [if_neg hs]
      rfl

lemma applyTgFill_pnl_bound {settings : NotificationSettings}
    {pos : CoinPosition} {f : TgFill} {c : String} {r : ℚ}
    (h : TgMessage.pnlAlert c r ∈ (applyTgFill settings pos f).2) :
    |r| ≥ settings.minNotificationAmount := by
  unfold applyTgFill at h
  by_cases hb : f.side = "B"
  · rw [if_pos hb] at h
    simp at h
  · rw [if_neg hb] at h
    by_cases hs : f.side = "S"
    · rw [if_pos hs] at h
      by_cases hl : pos.netSize > 0
      · rw [if_pos hl] at h
        simp only [] at h
        rcases List.mem_append.mp h with h1 | h2
        · exact sendClose_mem_bound h1
        · simp at h2
      · rw [if_neg hl] at h
        simp at h
    · rw [if_neg hs] at h
      simp at h

lemma processTgFills_fill_count (settings : NotificationSettings) :
    ∀ (fills : List TgFill) (pos : List (String × CoinPosition)),
    ((processTgFills settings pos fills).2.filter isFillAlert).length =
      fills.length := by
  intro fills
  induction fills with
  | nil => intro pos; rfl
  | cons f fs ih =>
      intro pos
      rw [processTgFills]
      simp only []
      rw [List.filter_append, List.length_append, applyTgFill_filter_fill, ih]
      simp
      omega

lemma processTgFills_pnl_bound {settings : NotificationSettings} :
    ∀ {fills : List TgFill} {pos : List (String × CoinPosition)} {c : String}
      {r : ℚ},
    TgMessage.pnlAlert c r ∈ (processTgFills settings pos fills).2 →
    |r| ≥ settings.minNotificationAmount := by
  intro fills
  induction fills with
  | nil =>
      intro pos c r h
      simp [processTgFills] at h
  | cons f fs ih =>
      intro pos c r h
      rw [processTgFills] at h
      simp only [] at h
      rcases List.mem_append.mp h with h1 | h2
      · exact applyTgFill_pnl_bound h1
      · exact ih h2

lemma thresholdPass_msgs (settings : NotificationSettings) (user : String) :
    ∀ (ps : List SnapshotPosition) (sm : List String × List TgMessage)
      (m : TgMessage), m ∈ (thresholdPass settings user sm ps).2 →
      m ∈ sm.2 ∨ ∃ u c t, m = .thresholdAlert u c t := by
  intro ps
  induction ps with
  | nil => intro sm m hm; exact Or.inl hm
  | cons p rest ih =>
      intro sm m hm
      rw [thresholdPass] at hm
      by_cases hg : |p.szi| > 0 ∧ p.entryPx > 0
      · rw [if_pos hg] at hm
        simp only [] at hm
        cases hscan : (pnlThresholdScan sm.1 user p.coin
            |p.unrealizedPnl / (|p.szi| * p.entryPx) * 100| |p.unrealizedPnl|
            settings.minNotificationAmount pnlThresholds).2 with
        | none =>
            rw [hscan] at hm
            simp only [] at hm
            rcases ih _ m hm with h0 | hth
            · exact Or.inl h0
            · exact Or.inr hth
        | some t =>
            rw [hscan] at hm
            simp only [] at hm
            rcases ih _ m hm with hin | hth
            · rcases List.mem_append.mp hin with h1 | h2
              · exact Or.inl h1
              · rcases List.mem_singleton.mp h2 with rfl
                exact Or.inr ⟨user, p.coin, t, rfl⟩
            · exact Or.inr hth
      · rw [if_neg hg] at hm
        exact ih _ m hm

lemma closePass_pnl_bound (settings : NotificationSettings)
    (closeFills : String → Option (ℚ × ℚ × ℚ)) (user : String)
    (current : List (String × PrevPosition)) :
    ∀ (prevs : List (String × PrevPosition))
      (sm : List String × List TgMessage) {c : String} {r : ℚ},
    TgMessage.pnlAlert c r ∈ (closePass settings closeFills user current sm prevs).2 →
    TgMessage.pnlAlert c r ∈ sm.2 ∨ |r| ≥ settings.minNotificationAmount := by
  intro prevs
  induction prevs with
  | nil => intro sm c r h; exact Or.inl h
  | cons cp rest ih =>
      intro sm c r h
      rw [closePass] at h
      by_cases hg : cp.2.size > 0 ∧
          ((lookupCoin current cp.1).map PrevPosition.size).getD 0 = 0
      · rw [if_pos hg] at h
        simp only [] at h
        by_cases hm : |(getCloseData closeFills cp.1 cp.2).2.2| ≥
            settings.minNotificationAmount
        · rw [if_pos hm] at h
          rcases ih _ h with hin | hbound
          · rcases List.mem_append.mp hin with h1 | h2
            · exact Or.inl h1
            · rcases List.mem_singleton.mp h2 with he
              obtain ⟨-, rfl⟩ : c = cp.1 ∧ r = (getCloseData closeFills cp.1 cp.2).2.2 := by
                injection he with h1 h2
                exact ⟨h1, h2⟩
              exact Or.inr hm
          · exact Or.inr hbound
        · rw [if_neg hm] at h
          rcases ih _ h with hin | hb
          · exact Or.inl hin
          · exact Or.inr hb
      · rw [if_neg hg] at h
        exact ih _ h

lemma allClosedPass_pnl_bound (settings : NotificationSettings)
    (closeFills : String → Option (ℚ × ℚ × ℚ)) :
    ∀ (prevs : List (String × PrevPosition)) {c : String} {r : ℚ},
    TgMessage.pnlAlert c r ∈ allClosedPass settings closeFills prevs →
    |r| ≥ settings.minNotificationAmount := by
  intro prevs
  induction prevs with
  | nil => intro c r h; simp [allClosedPass] at h
  | cons cp rest ih =>
      intro c r h
      rw [allClosedPass] at h
      by_cases hg : cp.2.size > 0
      · rw [if_pos hg] at h
        rcases List.mem_append.mp h with h1 | h2
        · by_cases hm : |(getCloseData closeFills cp.1 cp.2).2.2| ≥
              settings.minNotificationAmount
          · rw [if_pos hm] at h1
            rcases List.mem_singleton.mp h1 with he
            obtain ⟨-, rfl⟩ : c = cp.1 ∧ r = (getCloseData closeFills cp.1 cp.2).2.2 := by
              injection he with h1 h2
              exact ⟨h1, h2⟩
            exact hm
          · rw [if_neg hm] at h1
            simp at h1
        · exact ih h2
      · rw [if_neg hg] at h
        exact ih h

/-- Counterexample to C6 as stated: with fill notifications enabled and
`min_notification_amount = 1000`, a fill of notional `1 × 1 = 1 < 1000` still
produces a chat fill alert — the fills handler sends an alert for every fill
with no notional check. -/
theorem c6_fill_notification_counterexample :
    (1 : ℚ) * 1 < 1000 ∧
    (handleUserEventsForTelegram true
      { fillNotifications := true, pnlNotifications := true,
        minNotificationAmount := 1000 }
      [] [⟨"ETH", "B", 1, 1, 0⟩]).2 = [.fillAlert "ETH" "B" 1 1] := by
  constructor
  · norm_num
  · norm_num [handleUserEventsForTelegram, processTgFills, applyTgFill,
      lookupCoin, updateCoin]

/-- C6 amended: a fill or close notification requires a linked chat id and
`fill_notifications` enabled (the fills-driven close path is gated by the
fill toggle, not the P&L toggle); with them, EVERY fill produces exactly one
chat fill alert regardless of notional value, while close notifications —
both the fills-driven ones and the snapshot-driven ones — are sent only when
`|realized_pnl| ≥ min_notification_amount`. -/
theorem c6_notifications_amended :
    (∀ s pos fills, handleUserEventsForTelegram false s pos fills = (pos, [])) ∧
    (∀ s pos fills, s.fillNotifications = false →
      handleUserEventsForTelegram true s pos fills = (pos, [])) ∧
    (∀ (s : NotificationSettings) pos fills, s.fillNotifications = true →
      ((handleUserEventsForTelegram true s pos fills).2.filter isFillAlert).length
        = fills.length) ∧
    (∀ (s : NotificationSettings) pos fills c r,
      TgMessage.pnlAlert c r ∈ (handleUserEventsForTelegram true s pos fills).2 →
      |r| ≥ s.minNotificationAmount) ∧
    (∀ hasChat (s : NotificationSettings) cf user sent prev snapshot c r,
      TgMessage.pnlAlert c r ∈
        (handlePositionUpdatesForTelegram hasChat s cf user sent
          prev snapshot).2.2 →
      |r| ≥ s.minNotificationAmount) := by
  refine ⟨?_, ?_, ?_, ?_, ?_⟩
  · intro s pos fills
    rfl
  · intro s pos fills hs
    rw [handleUserEventsForTelegram]
    rw [if_neg (by simp), if_pos (by simp [hs])]
  · intro s pos fills hs
    rw [handleUserEventsForTelegram]
    rw [if_neg (by simp), if_neg (by simp [hs])]
    exact processTgFills_fill_count s fills pos
  · intro s pos fills c r h
    rw [handleUserEventsForTelegram] at h
    rw [if_neg (by simp)] at h
    by_cases hs : s.fillNotifications
    · rw [if_neg (by simp [hs])] at h
      exact processTgFills_pnl_bound h
    · rw [if_pos (by simpa using hs)] at h
      simp at h
  · intro hasChat s cf user sent prev snapshot c r h
    rw [handlePositionUpdatesForTelegram] at h
    by_cases hc : hasChat
    · rw [if_neg (by simp [hc])] at h
      by_cases hp : s.pnlNotifications
      · rw [if_neg (by simp [hp])] at h
        by_cases h1 : snapshot = [] ∧ prev ≠ []
        · rw [if_pos h1] at h
          exact allClosedPass_pnl_bound s cf prev h
        · rw [if_neg h1] at h
          by_cases h2 : snapshot = []
          · rw [if_pos h2] at h
            simp at h
          · rw [if_neg h2] at h
            simp only [] at h
            rcases closePass_pnl_bound s cf user _ prev _ h with hin | hbound
            · rcases thresholdPass_msgs s user snapshot _ _ hin with h0 | ⟨u, cc, t, he⟩
              · simp at h0
              · exact absurd he (by simp)
            · exact hbound
      · rw [if_pos (by simpa using hp)] at h
        simp at h
    · rw [if_pos (by simp [hc])] at h
      simp at h

/-- Witness for C6 amended: one buy fill with default settings produces
exactly one fill alert; with fill notifications disabled nothing is sent. -/
theorem c6_notifications_amended_witness :
    ((handleUserEventsForTelegram true {} [] [⟨"ETH", "B", 2, 3, 0⟩]).2.filter
      isFillAlert).length = 1 ∧
    handleUserEventsForTelegram true
      { fillNotifications := false } [] [⟨"ETH", "B", 2, 3, 0⟩] = ([], []) :=
  ⟨c6_notifications_amended.2.2.1 {} [] [⟨"ETH", "B", 2, 3, 0⟩] rfl,
   c6_notifications_amended.2.1 { fillNotifications := false } []
     [⟨"ETH", "B", 2, 3, 0⟩] rfl⟩

lemma pnlThresholdScan_none {sent : List String} {user coin : String}
    {absPct absPnl minAmt : ℚ} :
    ∀ ts, (pnlThresholdScan sent user coin absPct absPnl minAmt ts).2 = none →
      (pnlThresholdScan sent user coin absPct absPnl minAmt ts).1 = sent := by
  intro ts
  induction ts with
  | nil => intro _; rfl
  | cons t rest ih =>
      intro h
      rw [pnlThresholdScan] at h ⊢
      by_cases h1 : absPct ≥ (t : ℚ)
      · rw [if_pos h1] at h ⊢
        by_cases h2 : tgKey user coin t ∈ sent
        · rw [if_pos h2] at h ⊢
          exact ih h
        · rw [if_neg h2] at h ⊢
          by_cases h3 : absPnl ≥ minAmt
          · rw [if_pos h3] at h
            simp at h
          · rw [if_neg h3]
      · rw [if_neg h1] at h ⊢
        exact ih h

lemma pnlThresholdScan_some {sent : List String} {user coin : String}
    {absPct absPnl minAmt : ℚ} :
    ∀ ts, List.Pairwise (· < ·) ts →
    ∀ t, (pnlThresholdScan sent user coin absPct absPnl minAmt ts).2 = some t →
      t ∈ ts ∧ absPct ≥ (t : ℚ) ∧ tgKey user coin t ∉ sent ∧ absPnl ≥ minAmt ∧
      (pnlThresholdScan sent user coin absPct absPnl minAmt ts).1 =
        tgKey user coin t :: sent ∧
      ∀ t' ∈ ts, t' < t → (absPct < (t' : ℚ) ∨ tgKey user coin t' ∈ sent) := by
  intro ts
  induction ts with
  | nil => intro _ t h; simp [pnlThresholdScan] at h
  | cons t0 rest ih =>
      intro hpw t h
      obtain ⟨hhead, htail⟩ := List.pairwise_cons.mp hpw
      rw [pnlThresholdScan] at h
      by_cases h1 : absPct ≥ (t0 : ℚ)
      · rw [if_pos h1] at h
        by_cases h2 : tgKey user coin t0 ∈ sent
        · rw [if_pos h2] at h
          obtain ⟨hmem, hge, hnot, hmin, hsent, hall⟩ := ih htail t h
          refine ⟨List.mem_cons_of_mem _ hmem, hge, hnot, hmin, ?_, ?_⟩
          · rw [pnlThresholdScan, if_pos h1, if_pos h2]
            exact hsent
          · intro t' ht' hlt
            rcases List.mem_cons.mp ht' with rfl | ht'
            · exact Or.inr h2
            · exact hall t' ht' hlt
        · rw [if_neg h2] at h
          by_cases h3 : absPnl ≥ minAmt
          · rw [if_pos h3] at h
            obtain rfl : t0 = t := by simpa using h
            refine ⟨List.mem_cons_self _ _, h1, h2, h3, ?_, ?_⟩
            · rw [pnlThresholdScan, if_pos h1, if_neg h2, if_pos h3]
            · intro t' ht' hlt
              rcases List.mem_cons.mp ht' with rfl | ht'
              · exact absurd hlt (lt_irrefl _)
              · have hgt := hhead t' ht'
                exact absurd hlt (by omega)
          · rw [if_neg h3] at h
            simp at h
      · rw [if_neg h1] at h
        obtain ⟨hmem, hge, hnot, hmin, hsent, hall⟩ := ih htail t h
        refine ⟨List.mem_cons_of_mem _ hmem, hge, hnot, hmin, ?_, ?_⟩
        · rw [pnlThresholdScan, if_neg h1]
          exact hsent
        · intro t' ht' hlt
          rcases List.mem_cons.mp ht' with rfl | ht'
          · exact Or.inl (lt_of_not_ge h1)
          · exact hall t' ht' hlt

lemma closePass_sent_subset (settings : NotificationSettings)
    (cf : String → Option (ℚ × ℚ × ℚ)) (user : String)
    (current : List (String × PrevPosition)) :
    ∀ (prevs : List (String × PrevPosition))
      (sm : List String × List TgMessage) (k : String),
      k ∈ (closePass settings cf user current sm prevs).1 → k ∈ sm.1 := by
  intro prevs
  induction prevs with
  | nil => intro sm k h; exact h
  | cons cp rest ih =>
      intro sm k h
      rw [closePass] at h
      by_cases hg : cp.2.size > 0 ∧
          ((lookupCoin current cp.1).map PrevPosition.size).getD 0 = 0
      · rw [if_pos hg] at h
        simp only [] at h
        exact List.mem_of_mem_filter (ih _ k h)
      · rw [if_neg hg] at h
        exact ih _ k h

lemma closePass_clears (settings : NotificationSettings)
    (cf : String → Option (ℚ × ℚ × ℚ)) (user : String)
    (current : List (String × PrevPosition)) :
    ∀ (prevs : List (String × PrevPosition))
      (sm : List String × List TgMessage) (coin : String) (p : PrevPosition),
      (coin, p) ∈ prevs → p.size > 0 →
      ((lookupCoin current coin).map PrevPosition.size).getD 0 = 0 →
      ∀ k, strHasPrefix (user ++ "_" ++ coin ++ "_") k = true →
      k ∉ (closePass settings cf user current sm prevs).1 := by
  intro prevs
  induction prevs with
  | nil => intro sm coin p hmem; simp at hmem
  | cons cp rest ih =>
      intro sm coin p hmem hsize hcur k hpre hk
      rcases List.mem_cons.mp hmem with he | hmem'
      · obtain rfl : cp = (coin, p) := he.symm
        have hg : (coin, p).2.size > 0 ∧
            ((lookupCoin current (coin, p).1).map PrevPosition.size).getD 0 = 0 :=
          ⟨hsize, hcur⟩
        rw [closePass, if_pos hg] at hk
        simp only [] at hk
        have hsub := closePass_sent_subset settings cf user current rest _ k hk
        have hfil := List.mem_filter.mp hsub
        rw [hpre] at hfil
        simpa using hfil.2
      · rw [closePass] at hk
        by_cases hg : cp.2.size > 0 ∧
            ((lookupCoin current cp.1).map PrevPosition.size).getD 0 = 0
        · rw [if_pos hg] at hk
          simp only [] at hk
          exact ih _ coin p hmem' hsize hcur k hpre hk
        · rw [if_neg hg] at hk
          exact ih _ coin p hmem' hsize hcur k hpre hk

/-- Counterexample to C5 as stated: (1) a position at +60% P&L (all three
thresholds crossed) emits the alert for threshold 10 — the LOWEST crossed —
not the highest, because the source iterates `[10, 25, 50]` in ascending
order and breaks at the first unsent key; and (2) a snapshot reporting NO
positions while a previous ETH position existed emits the position-close
alert but leaves the dedup key `u_ETH_10` in `sent_notifications`. -/
theorem c5_pnl_alert_counterexample :
    (60 : ℚ) ≥ 50 ∧
    (pnlThresholdScan [] "u" "ETH" 60 100 0 pnlThresholds).2 = some 10 ∧
    (handlePositionUpdatesForTelegram true {} (fun _ => none) "u"
      ["u_ETH_10"] [("ETH", ⟨1, 20, 2500⟩)] []).1 = ["u_ETH_10"] ∧
    (handlePositionUpdatesForTelegram true {} (fun _ => none) "u"
      ["u_ETH_10"] [("ETH", ⟨1, 20, 2500⟩)] []).2.2 =
      [.pnlAlert "ETH" 20] := by
  refine ⟨by norm_num, ?_, ?_, ?_⟩
  · norm_num [pnlThresholdScan, pnlThresholds]
  · norm_num [handlePositionUpdatesForTelegram, allClosedPass, getCloseData]
  · norm_num [handlePositionUpdatesForTelegram, allClosedPass, getCloseData]

/-- C5 amended: when a threshold alert is emitted it is for the LOWEST
threshold in {10, 25, 50} crossed by |pnl_pct| whose (user, asset, threshold)
key is not yet recorded (each lower crossed threshold already has its key
recorded), the key is recorded exactly once, and nothing is emitted or
recorded otherwise; the dedup keys of a (user, asset) are cleared when the
position flattens in a snapshot that still lists entries (per-coin close
detection), but a snapshot listing no positions at all emits the close alerts
while clearing no keys. -/
theorem c5_pnl_alerts_amended :
    (∀ (sent : List String) (user coin : String) (absPct absPnl minAmt : ℚ) t,
      (pnlThresholdScan sent user coin absPct absPnl minAmt pnlThresholds).2
        = some t →
      t ∈ pnlThresholds ∧ absPct ≥ (t : ℚ) ∧ tgKey user coin t ∉ sent ∧
      absPnl ≥ minAmt ∧
      (pnlThresholdScan sent user coin absPct absPnl minAmt pnlThresholds).1 =
        tgKey user coin t :: sent ∧
      ∀ t' ∈ pnlThresholds, t' < t →
        (absPct < (t' : ℚ) ∨ tgKey user coin t' ∈ sent)) ∧
    (∀ (sent : List String) (user coin : String) (absPct absPnl minAmt : ℚ),
      (pnlThresholdScan sent user coin absPct absPnl minAmt pnlThresholds).2
        = none →
      (pnlThresholdScan sent user coin absPct absPnl minAmt pnlThresholds).1
        = sent) ∧
    (∀ (s : NotificationSettings) cf (user : String) sent prev snapshot
        (coin : String) (p : PrevPosition),
      s.pnlNotifications = true → snapshot ≠ [] → (coin, p) ∈ prev →
      p.size > 0 →
      ((lookupCoin (buildCurrent snapshot) coin).map PrevPosition.size).getD 0
        = 0 →
      ∀ k, strHasPrefix (user ++ "_" ++ coin ++ "_") k = true →
      k ∉ (handlePositionUpdatesForTelegram true s cf user sent
        prev snapshot).1) ∧
    (∀ (s : NotificationSettings) cf (user : String) sent prev,
      s.pnlNotifications = true → prev ≠ [] →
      (handlePositionUpdatesForTelegram true s cf user sent prev []).1 = sent ∧
      (handlePositionUpdatesForTelegram true s cf user sent prev []).2.1 = []) := by
  refine ⟨?_, ?_, ?_, ?_⟩
  · intro sent user coin absPct absPnl minAmt t h
    exact pnlThresholdScan_some pnlThresholds (by decide) t h
  · intro sent user coin absPct absPnl minAmt h
    exact pnlThresholdScan_none pnlThresholds h
  · intro s cf user sent prev snapshot coin p hp hsnap hmem hsize hcur k hpre
    rw [handlePositionUpdatesForTelegram]
    rw [if_neg (by simp), if_neg (by simp [hp]),
      if_neg (fun hc => hsnap hc.1), if_neg hsnap]
    simp only []
    exact closePass_clears s cf user (buildCurrent snapshot) prev _ coin p
      hmem hsize hcur k hpre
  · intro s cf user sent prev hp hprev
    rw [handlePositionUpdatesForTelegram]
    rw [if_neg (by simp), if_neg (by simp [hp]), if_pos ⟨rfl, hprev⟩]
    exact ⟨rfl, rfl⟩

/-- Witness for C5 amended: at +60% the scan emits threshold 10 with its key
newly recorded; with a snapshot still listing a flattened ETH entry the key
`u_ETH_10` is cleared; with an empty snapshot the key set is returned
untouched. -/
theorem c5_pnl_alerts_amended_witness :
    ((60 : ℚ) ≥ (10 : ℚ) ∧ tgKey "u" "ETH" 10 ∉ ([] : List String)) ∧
    "u_ETH_10" ∉ (handlePositionUpdatesForTelegram true {} (fun _ => none) "u"
      ["u_ETH_10"] [("ETH", ⟨1, 20, 2500⟩)] [⟨"ETH", 0, 0, 0⟩]).1 ∧
    (handlePositionUpdatesForTelegram true {} (fun _ => none) "u"
      ["u_ETH_10"] [("ETH", ⟨1, 20, 2500⟩)] []).1 = ["u_ETH_10"] := by
  refine ⟨?_, ?_, ?_⟩
  · have h := c5_pnl_alerts_amended.1 [] "u" "ETH" 60 100 0 10
      (by norm_num [pnlThresholdScan, pnlThresholds])
    exact ⟨h.2.1, h.2.2.1⟩
  · refine c5_pnl_alerts_amended.2.2.1 {} (fun _ => none) "u" ["u_ETH_10"]
      [("ETH", ⟨1, 20, 2500⟩)] [⟨"ETH", 0, 0, 0⟩] "ETH" ⟨1, 20, 2500⟩ rfl
      (by simp) (by simp) (by norm_num) ?_ "u_ETH_10" (by decide)
    norm_num [buildCurrent, updateCoin, lookupCoin]
  · exact (c5_pnl_alerts_amended.2.2.2 {} (fun _ => none) "u" ["u_ETH_10"]
      [("ETH", ⟨1, 20, 2500⟩)] rfl (by simp)).1

end HyperSwipe
